import Mathlib

set_option autoImplicit false
set_option linter.unusedVariables false

/-!
Verification development for `batavia/modules/_compile/_compile.js`:
the parse driver (`parsetok`), the error classifier (`err_input`) and the
exception chainer (`PyErr_SetObject`).

Conventions of the embedding:
* JavaScript objects holding Python values are modelled by the inductive
  `PyVal`; exception instances are identified by a numeric object identity
  (`PyVal.exc id`), since the chainer compares and links records by identity.
* The raw tokenizer/parser error codes (`E_*`) and the token type codes
  (`ENDMARKER`, ...) are defined in the external Token Source, not in this
  file's source; they are modelled as an inductive type resp. distinct
  numeric constants.
* The CPython C-API helpers used by the source (`PyErr_Restore`,
  `PyErr_Occurred`, `PyException_GetContext`, ...) are not part of the
  source file; they are modelled from the spec (a single call-scoped
  exception slot plus per-record `context`/`traceback` attributes).
* The source's `PyErr_SetObject` declares its second parameter as `o` but
  the body consistently reads `value` (and once `ontext` for `context`);
  the spec's design notes flag this as a transcription slip and give the
  intended contract, which is what the embedding follows: `value` is the
  second parameter, `context` is the loop-local variable.
-/

/-- Raw error codes of the Token Source and Grammar Engine (`E_*`).  The
enumeration lives outside the source file; `other` models any further raw
code beyond the kinds the spec requires. -/
inductive ECode where
  | E_OK
  | E_EOF
  | E_INTR
  | E_TOKEN
  | E_SYNTAX
  | E_NOMEM
  | E_DONE
  | E_ERROR
  | E_TABSPACE
  | E_OVERFLOW
  | E_TOODEEP
  | E_DEDENT
  | E_DECODE
  | E_EOFS
  | E_EOLS
  | E_LINECONT
  | E_IDENTIFIER
  | E_BADSINGLE
  | other (n : Nat)
  deriving DecidableEq, Repr

/-- Exception classes used by the classifier and chainer. -/
inductive ExcKind where
  | SyntaxError
  | IndentationError
  | TabError
  | MemoryError
  | KeyboardInterrupt
  | SystemError
  | otherKind (n : Nat)
  deriving DecidableEq, Repr

/-- Runtime values as seen by the chainer: `nullV` is JavaScript
`null`/`undefined` (the only falsy value that occurs here), `noneV` is
`Py_None`, `exc id` is an exception instance with object identity `id`. -/
inductive PyVal where
  | nullV
  | noneV
  | str (s : String)
  | int (n : Int)
  | tuple (xs : List PyVal)
  | exc (id : Nat)

mutual

def PyVal.beq : PyVal → PyVal → Bool
  | .nullV, .nullV => true
  | .noneV, .noneV => true
  | .str a, .str b => a == b
  | .int a, .int b => a == b
  | .tuple xs, .tuple ys => PyVal.beqList xs ys
  | .exc i, .exc j => i == j
  | _, _ => false

def PyVal.beqList : List PyVal → List PyVal → Bool
  | [], [] => true
  | x :: xs, y :: ys => PyVal.beq x y && PyVal.beqList xs ys
  | _, _ => false

end

mutual

theorem PyVal.eq_of_beq : ∀ {a b : PyVal}, PyVal.beq a b = true → a = b
  | .nullV, .nullV, _ => rfl
  | .noneV, .noneV, _ => rfl
  | .str a, .str b, h => by
    exact congrArg PyVal.str (by simpa [PyVal.beq] using h)
  | .int a, .int b, h => by
    exact congrArg PyVal.int (by simpa [PyVal.beq] using h)
  | .tuple xs, .tuple ys, h => by
    exact congrArg PyVal.tuple (PyVal.eqList_of_beqList (by simpa [PyVal.beq] using h))
  | .exc i, .exc j, h => by
    exact congrArg PyVal.exc (by simpa [PyVal.beq] using h)

theorem PyVal.eqList_of_beqList : ∀ {xs ys : List PyVal},
    PyVal.beqList xs ys = true → xs = ys
  | [], [], _ => rfl
  | x :: xs, y :: ys, h => by
    have h' := h
    simp only [PyVal.beqList, Bool.and_eq_true] at h'
    exact by rw [PyVal.eq_of_beq h'.1, PyVal.eqList_of_beqList h'.2]

end

mutual

theorem PyVal.beq_refl : ∀ a : PyVal, PyVal.beq a a = true
  | .nullV => rfl
  | .noneV => rfl
  | .str a => by simp [PyVal.beq]
  | .int a => by simp [PyVal.beq]
  | .tuple xs => by simpa [PyVal.beq] using PyVal.beqList_refl xs
  | .exc i => by simp [PyVal.beq]

theorem PyVal.beqList_refl : ∀ xs : List PyVal, PyVal.beqList xs xs = true
  | [] => rfl
  | x :: xs => by
    simp only [PyVal.beqList, Bool.and_eq_true]
    exact ⟨PyVal.beq_refl x, PyVal.beqList_refl xs⟩

end

instance : DecidableEq PyVal := fun a b =>
  decidable_of_iff (PyVal.beq a b = true)
    ⟨PyVal.eq_of_beq, fun h => h ▸ PyVal.beq_refl a⟩

/-- Association-list lookup keyed by record identity (first match wins, as
property update below prepends). -/
def lookupA {β : Type} : List (Nat × β) → Nat → Option β
  | [], _ => none
  | (k, v) :: rest, i => if k = i then some v else lookupA rest i

/-- Modelled from the spec: the ExceptionState slot (the currently active
exception record as a `(type, value, traceback)` triple) together with the
per-record mutable attributes the chainer touches: the `context` link and
the `__traceback__` attribute, plus an allocation log for instances built
by calling an exception class. -/
structure ExcState where
  curType : Option ExcKind := none
  curVal : PyVal := .nullV
  curTb : PyVal := .nullV
  ctx : List (Nat × PyVal) := []
  tbAttr : List (Nat × PyVal) := []
  alloc : List (Nat × ExcKind × List PyVal) := []
  nextId : Nat := 0
  deriving DecidableEq

def initExcState : ExcState := {}

/-- Modelled from the spec: installing a `(type, value, traceback)` triple
fully replaces the active exception state. -/
def PyErr_Restore (s : ExcState) (k : Option ExcKind) (v tb : PyVal) : ExcState :=
  { s with curType := k, curVal := v, curTb := tb }

/-- Modelled from the spec: clearing the active slot. -/
def PyErr_Clear (s : ExcState) : ExcState :=
  PyErr_Restore s none .nullV .nullV

/-- Modelled from the spec: an exception is currently active when the slot
holds a type. -/
def PyErr_Occurred (s : ExcState) : Bool :=
  s.curType.isSome

/-- Modelled from the spec: fetch returns the active triple and clears the
slot. -/
def PyErr_Fetch (s : ExcState) : ExcState × Option ExcKind × PyVal × PyVal :=
  (PyErr_Clear s, s.curType, s.curVal, s.curTb)

def PyExceptionInstance_Check : PyVal → Bool
  | .exc _ => true
  | _ => false

def PyTuple_Check : PyVal → Bool
  | .tuple _ => true
  | _ => false

/-- Context attribute of record `i` (`nullV` when absent). -/
def getCtx (s : ExcState) (i : Nat) : PyVal :=
  (lookupA s.ctx i).getD .nullV

/-- Modelled from the spec: reading a record's `context` back-reference;
non-instances have none. -/
def PyException_GetContext (s : ExcState) (v : PyVal) : PyVal :=
  match v with
  | .exc i => getCtx s i
  | _ => .nullV

/-- Modelled from the spec: setting a record's `context` back-reference. -/
def PyException_SetContext (s : ExcState) (v c : PyVal) : ExcState :=
  match v with
  | .exc i => { s with ctx := (i, c) :: s.ctx }
  | _ => s

/-- Modelled from the spec: reading a record's traceback attribute. -/
def PyException_GetTraceback (s : ExcState) (v : PyVal) : PyVal :=
  match v with
  | .exc i => (lookupA s.tbAttr i).getD .nullV
  | _ => .nullV

/-- Modelled from the spec: calling an exception class with a positional
argument tuple constructs a fresh instance (fresh object identity). -/
def PyEval_CallObject (s : ExcState) (k : ExcKind) (args : List PyVal) :
    ExcState × PyVal :=
  ({ s with alloc := (s.nextId, k, args) :: s.alloc, nextId := s.nextId + 1 },
   .exc s.nextId)

/-- The cycle-avoidance walk of `PyErr_SetObject` (source lines 82-91):
walk the previously active record's context chain from `o`; if `value`
appears as someone's context, null that link and stop.  The source uses an
unbounded `while`; the embedding takes explicit fuel, and the caller passes
enough fuel for any chain the acyclicity invariant allows. -/
def chainUnlink (s : ExcState) (o value : PyVal) : Nat → ExcState
  | 0 => s
  | fuel + 1 =>
    let context := PyException_GetContext s o
    if context = .nullV then s
    else if context = value then PyException_SetContext s o .nullV
    else chainUnlink s context value fuel

/-- Constructor arguments of the normalization step (source lines 64-71):
an absent value gives zero arguments, a tuple is spread as the arguments,
anything else is passed as a single argument. -/
def coerceArgs : PyVal → List PyVal
  | .nullV => []
  | .noneV => []
  | .tuple xs => xs
  | v => [v]

/-- The normalization step of `PyErr_SetObject` (source lines 55-77): when
the raised value is not an exception instance, clear the active slot and
build a concrete instance by calling the exception class on the coerced
arguments. -/
def normalizeVal (s : ExcState) (exception : ExcKind) (value : PyVal) :
    ExcState × PyVal :=
  if value = .nullV ∨ ¬ PyExceptionInstance_Check value then
    PyEval_CallObject (PyErr_Clear s) exception (coerceArgs value)
  else (s, value)

/-- The chain-manipulation step of `PyErr_SetObject` (source lines 82-93):
unless the new value is the already-active record itself, unlink the new
value from the previously active record's context chain and attach that
record as the new value's context. -/
def chainStep (s2 : ExcState) (exc_value value : PyVal) : ExcState :=
  if exc_value ≠ value then
    PyException_SetContext (chainUnlink s2 exc_value value (s2.ctx.length + 1))
      value exc_value
  else s2

/-- `PyErr_SetObject` from the source (lines 40-98).  The second parameter
is the raised raw value (declared `o`, read as `value` by the body; see the
file comment).  When an exception is already active the raw value is first
normalized into an instance, the previously active record's chain is
scanned to unlink a reoccurrence of the new value, and the previous record
becomes the new value's `context`; the new triple then replaces the active
state, carrying over any traceback already present on the value. -/
def PyErr_SetObject (s0 : ExcState) (exception : ExcKind) (o : PyVal) : ExcState :=
  if s0.curVal ≠ PyVal.nullV ∧ s0.curVal ≠ PyVal.noneV then
    let coerced := normalizeVal s0 exception o
    let s4 := chainStep coerced.1 s0.curVal coerced.2
    let tb : PyVal :=
      if coerced.2 ≠ PyVal.nullV ∧ PyExceptionInstance_Check coerced.2 then
        PyException_GetTraceback s4 coerced.2
      else PyVal.nullV
    PyErr_Restore s4 (some exception) coerced.2 tb
  else
    let tb : PyVal :=
      if o ≠ PyVal.nullV ∧ PyExceptionInstance_Check o then
        PyException_GetTraceback s0 o
      else PyVal.nullV
    PyErr_Restore s0 (some exception) o tb

/-- `PyErr_SetNone` from the source (lines 36-38). -/
def PyErr_SetNone (s : ExcState) (exception : ExcKind) : ExcState :=
  PyErr_SetObject s exception .nullV

/-- Modelled from the spec: token type codes from the external Token
Source; only their distinctness is relied on (values follow CPython). -/
def ENDMARKER : Nat := 0

def NEWLINE : Nat := 4

def INDENT : Nat := 5

def DEDENT : Nat := 6

def ERRORTOKEN : Nat := 52

/-- `ErrorDetail` from the source (lines 22-34): the mutable error record
threaded through the Parse Driver and read by the Error Classifier.  The
constructor starts `error` at `E_OK` and `token`/`expected` at `-1`. -/
structure ErrorDetail where
  error : ECode := .E_OK
  lineno : Nat := 0
  offset : Nat := 0
  text : Option String := none
  token : Int := -1
  expected : Int := -1
  filename : String := "<string>"
  deriving DecidableEq, Repr

/-- The `ErrorDetail` constructor: a falsy `filename` argument (absent or
empty) falls back to `"<string>"`. -/
def mkErrorDetail (filename : Option String) : ErrorDetail :=
  match filename with
  | some f => if f = "" then {} else { filename := f }
  | none => {}

/-- Position payload of the classifier (source lines 184-191): the tuple
`(filename, lineno, offset, text)`, where a falsy `err.text` (absent or
empty) gives a null text component. -/
def posTuple (err : ErrorDetail) : PyVal :=
  .tuple [.str err.filename, .int (err.lineno : Int), .int (err.offset : Int),
    match err.text with
    | none => .nullV
    | some t => if t = "" then .nullV else .str t]

/-- `err_input` from the source (lines 100-199): classify an `ErrorDetail`
into an exception kind plus message and position payload, and raise it via
`PyErr_SetObject`.  `E_ERROR` returns silently; `E_INTR` raises
`KeyboardInterrupt` only when no exception is active; `E_NOMEM` raises
`MemoryError`; every other code falls through to the common tail that
builds `(message, (filename, lineno, offset, text))` and raises it, with
the switch's `default` using the message `"unknown parsing error"`. -/
def err_input (s : ExcState) (err : ErrorDetail) : ExcState :=
  match err.error with
  | .E_ERROR => s
  | .E_INTR =>
    if ¬ (PyErr_Occurred s = true) then PyErr_SetNone s .KeyboardInterrupt else s
  | .E_NOMEM => PyErr_SetNone s .MemoryError
  | e =>
    let classified : ExcState × ExcKind × String × Option PyVal :=
      match e with
      | .E_SYNTAX =>
        if err.expected = (INDENT : Int) then
          (s, .IndentationError, "expected an indented block", none)
        else if err.token = (INDENT : Int) then
          (s, .IndentationError, "unexpected indent", none)
        else if err.token = (DEDENT : Int) then
          (s, .IndentationError, "unexpected unindent", none)
        else
          (s, .SyntaxError, "invalid syntax", none)
      | .E_TOKEN => (s, .SyntaxError, "invalid token", none)
      | .E_EOFS =>
        (s, .SyntaxError, "EOF while scanning triple-quoted string literal", none)
      | .E_EOLS =>
        (s, .SyntaxError, "EOL while scanning string literal", none)
      | .E_EOF => (s, .SyntaxError, "unexpected EOF while parsing", none)
      | .E_TABSPACE =>
        (s, .TabError, "inconsistent use of tabs and spaces in indentation", none)
      | .E_OVERFLOW => (s, .SyntaxError, "expression too long", none)
      | .E_DEDENT =>
        (s, .IndentationError, "unindent does not match any outer indentation level", none)
      | .E_TOODEEP =>
        (s, .IndentationError, "too many levels of indentation", none)
      | .E_DECODE =>
        let f := PyErr_Fetch s
        let value := f.2.2.1
        if value ≠ .nullV then
          (f.1, .SyntaxError, "unknown decode error", some value)
        else
          (f.1, .SyntaxError, "unknown decode error", none)
      | .E_LINECONT =>
        (s, .SyntaxError, "unexpected character after line continuation character", none)
      | .E_IDENTIFIER =>
        (s, .SyntaxError, "invalid character in identifier", none)
      | .E_BADSINGLE =>
        (s, .SyntaxError, "multiple statements found while compiling a single statement", none)
      | _ => (s, .SyntaxError, "unknown parsing error", none)
    let w : PyVal :=
      match classified.2.2.2 with
      | some m => .tuple [m, posTuple err]
      | none => .tuple [.str classified.2.2.1, posTuple err]
    PyErr_SetObject classified.1 classified.2.1 w

/-- No exception value is active (the chainer's implicit-chaining test on
the slot's value is false). -/
def NoActiveVal (s : ExcState) : Prop :=
  s.curVal = .nullV ∨ s.curVal = .noneV

/-- The slot is fully empty: no type and no value installed. -/
def CleanSlot (s : ExcState) : Prop :=
  s.curType = none ∧ NoActiveVal s

/-- Classification raises kind `K` whose payload's first component is the
message string `m`. -/
def raisesWithMsg (s : ExcState) (err : ErrorDetail) (K : ExcKind) (m : String) : Prop :=
  (err_input s err).curType = some K ∧
  ∃ pos : PyVal, (err_input s err).curVal = .tuple [.str m, pos]

theorem lookupA_cons {β : Type} (k : Nat) (v : β) (rest : List (Nat × β)) (i : Nat) :
    lookupA ((k, v) :: rest) i = if k = i then some v else lookupA rest i := rfl


/-- Branch lemma: with an active value, `PyErr_SetObject` normalizes,
manipulates the chain, and installs. -/
theorem setObject_active (s0 : ExcState) (k : ExcKind) (o : PyVal)
    (hA : s0.curVal ≠ PyVal.nullV ∧ s0.curVal ≠ PyVal.noneV) :
    PyErr_SetObject s0 k o =
      PyErr_Restore (chainStep (normalizeVal s0 k o).1 s0.curVal (normalizeVal s0 k o).2)
        (some k) (normalizeVal s0 k o).2
        (if (normalizeVal s0 k o).2 ≠ PyVal.nullV ∧
            PyExceptionInstance_Check (normalizeVal s0 k o).2 then
          PyException_GetTraceback
            (chainStep (normalizeVal s0 k o).1 s0.curVal (normalizeVal s0 k o).2)
            (normalizeVal s0 k o).2
        else PyVal.nullV) := by
  unfold PyErr_SetObject
  rw [if_pos hA]

/-- Branch lemma: with no active value, `PyErr_SetObject` installs the raw
value unchanged. -/
theorem setObject_notActive (s0 : ExcState) (k : ExcKind) (o : PyVal)
    (hA : ¬ (s0.curVal ≠ PyVal.nullV ∧ s0.curVal ≠ PyVal.noneV)) :
    PyErr_SetObject s0 k o =
      PyErr_Restore s0 (some k) o
        (if o ≠ PyVal.nullV ∧ PyExceptionInstance_Check o then
          PyException_GetTraceback s0 o
        else PyVal.nullV) := by
  unfold PyErr_SetObject
  rw [if_neg hA]

/-- Raising any value while nothing is active installs it unchanged. -/
theorem setObject_noActive_val (s : ExcState) (k : ExcKind) (o : PyVal)
    (h : NoActiveVal s) :
    (PyErr_SetObject s k o).curVal = o ∧
    (PyErr_SetObject s k o).curType = some k ∧
    (PyErr_SetObject s k o).ctx = s.ctx ∧
    (PyErr_SetObject s k o).alloc = s.alloc := by
  have hA : ¬ (s.curVal ≠ PyVal.nullV ∧ s.curVal ≠ PyVal.noneV) := by
    rcases h with h | h <;> simp [h]
  rw [setObject_notActive s k o hA]
  simp [PyErr_Restore]

/-- Raising a tuple while nothing is active installs it raw with an empty
traceback. -/
theorem setObject_tuple_noActive (s : ExcState) (k : ExcKind) (xs : List PyVal)
    (h : NoActiveVal s) :
    PyErr_SetObject s k (.tuple xs) = PyErr_Restore s (some k) (.tuple xs) .nullV := by
  have hA : ¬ (s.curVal ≠ PyVal.nullV ∧ s.curVal ≠ PyVal.noneV) := by
    rcases h with h | h <;> simp [h]
  rw [setObject_notActive s k (.tuple xs) hA]
  simp [PyExceptionInstance_Check]

/-- The unlink walk either does nothing or nulls exactly one node's
context, namely a node whose context was the searched value. -/
theorem chainUnlink_cases (v : PyVal) :
    ∀ (f : Nat) (o : PyVal) (s : ExcState),
      chainUnlink s o v f = s ∨
      ∃ u, getCtx s u = v ∧ v ≠ .nullV ∧
        chainUnlink s o v f = { s with ctx := (u, .nullV) :: s.ctx } := by
  intro f
  induction f with
  | zero => intro o s; exact Or.inl rfl
  | succ f ih =>
    intro o s
    have hdef : chainUnlink s o v (f + 1) =
        (if PyException_GetContext s o = .nullV then s
         else if PyException_GetContext s o = v then
           PyException_SetContext s o .nullV
         else chainUnlink s (PyException_GetContext s o) v f) := rfl
    rw [hdef]
    by_cases h0 : PyException_GetContext s o = .nullV
    · rw [if_pos h0]; exact Or.inl rfl
    · rw [if_neg h0]
      by_cases h1 : PyException_GetContext s o = v
      · rw [if_pos h1]
        rcases o with _ | _ | t | n | xs | u
        · exact absurd rfl h0
        · exact absurd rfl h0
        · exact absurd rfl h0
        · exact absurd rfl h0
        · exact absurd rfl h0
        · exact Or.inr ⟨u, h1, fun hv => h0 (h1.trans hv), rfl⟩
      · rw [if_neg h1]
        exact ih (PyException_GetContext s o) s

/-- Normalization never touches the context links. -/
theorem normalizeVal_ctx (s : ExcState) (k : ExcKind) (v : PyVal) :
    (normalizeVal s k v).1.ctx = s.ctx := by
  unfold normalizeVal
  split <;> simp [PyEval_CallObject, PyErr_Clear, PyErr_Restore]

/-- Normalization never touches the traceback attributes. -/
theorem normalizeVal_tbAttr (s : ExcState) (k : ExcKind) (v : PyVal) :
    (normalizeVal s k v).1.tbAttr = s.tbAttr := by
  unfold normalizeVal
  split <;> simp [PyEval_CallObject, PyErr_Clear, PyErr_Restore]

/-- Normalization of a non-instance yields the freshly allocated record
with the deterministic constructor arguments. -/
theorem normalizeVal_fresh (s : ExcState) (k : ExcKind) (v : PyVal)
    (h : v = .nullV ∨ ¬ PyExceptionInstance_Check v) :
    (normalizeVal s k v).2 = .exc s.nextId ∧
    (normalizeVal s k v).1.nextId = s.nextId + 1 ∧
    (normalizeVal s k v).1.alloc = (s.nextId, k, coerceArgs v) :: s.alloc := by
  unfold normalizeVal
  rw [if_pos h]
  exact ⟨rfl, rfl, rfl⟩

/-- Normalization of an instance is the identity. -/
theorem normalizeVal_inst (s : ExcState) (k : ExcKind) (v : PyVal)
    (h : PyExceptionInstance_Check v = true) :
    normalizeVal s k v = (s, v) := by
  unfold normalizeVal
  rw [if_neg]
  rintro (h' | h')
  · subst h'; simp [PyExceptionInstance_Check] at h
  · exact h' h

/-- The normalized value is always an exception instance. -/
theorem normalizeVal_isInst (s : ExcState) (k : ExcKind) (v : PyVal) :
    PyExceptionInstance_Check (normalizeVal s k v).2 = true := by
  by_cases h : v = PyVal.nullV ∨ ¬ PyExceptionInstance_Check v
  · rw [(normalizeVal_fresh s k v h).1]; rfl
  · have hinst : PyExceptionInstance_Check v = true := by
      rcases h' : PyExceptionInstance_Check v with _ | _
      · exact absurd (Or.inr (by simp [h'])) h
      · rfl
    rw [normalizeVal_inst s k v hinst]
    exact hinst

/-- The chain step only prepends context entries, and no entry it adds
points a record at itself. -/
theorem chainStep_entries (s2 : ExcState) (exc_value value : PyVal) :
    ∃ entries, (chainStep s2 exc_value value).ctx = entries ++ s2.ctx ∧
      ∀ p ∈ entries, p.2 ≠ PyVal.exc p.1 := by
  unfold chainStep
  by_cases hne : exc_value ≠ value
  · rw [if_pos hne]
    rcases chainUnlink_cases value (s2.ctx.length + 1) exc_value s2 with h | ⟨u, hu, hv, h⟩ <;>
      rw [h] <;> rcases value with _ | _ | t | n | xs | vb
    · exact ⟨[], by simp [PyException_SetContext], by simp⟩
    · exact ⟨[], by simp [PyException_SetContext], by simp⟩
    · exact ⟨[], by simp [PyException_SetContext], by simp⟩
    · exact ⟨[], by simp [PyException_SetContext], by simp⟩
    · exact ⟨[], by simp [PyException_SetContext], by simp⟩
    · refine ⟨[(vb, exc_value)], by simp [PyException_SetContext], ?_⟩
      intro p hp
      rcases List.mem_singleton.mp hp with rfl
      simpa using fun hc => hne hc
    · exact ⟨[(u, .nullV)], by simp [PyException_SetContext], by simp⟩
    · exact ⟨[(u, .nullV)], by simp [PyException_SetContext], by simp⟩
    · exact ⟨[(u, .nullV)], by simp [PyException_SetContext], by simp⟩
    · exact ⟨[(u, .nullV)], by simp [PyException_SetContext], by simp⟩
    · exact ⟨[(u, .nullV)], by simp [PyException_SetContext], by simp⟩
    · refine ⟨[(vb, exc_value), (u, .nullV)], by simp [PyException_SetContext], ?_⟩
      intro p hp
      rcases List.mem_cons.mp hp with rfl | hp
      · simpa using fun hc => hne hc
      · rcases List.mem_singleton.mp hp with rfl
        simp
  · rw [if_neg hne]
    exact ⟨[], by simp, by simp⟩

/-- The chainer only prepends context entries, and no entry it adds points
a record at itself. -/
theorem setObject_ctx_entries (s : ExcState) (k : ExcKind) (o : PyVal) :
    ∃ entries, (PyErr_SetObject s k o).ctx = entries ++ s.ctx ∧
      ∀ p ∈ entries, p.2 ≠ PyVal.exc p.1 := by
  by_cases hA : s.curVal ≠ PyVal.nullV ∧ s.curVal ≠ PyVal.noneV
  · rw [setObject_active s k o hA]
    rcases chainStep_entries (normalizeVal s k o).1 s.curVal (normalizeVal s k o).2 with
      ⟨entries, he, hp⟩
    refine ⟨entries, ?_, hp⟩
    rw [show (PyErr_Restore
        (chainStep (normalizeVal s k o).1 s.curVal (normalizeVal s k o).2) (some k)
        (normalizeVal s k o).2 _).ctx =
        (chainStep (normalizeVal s k o).1 s.curVal (normalizeVal s k o).2).ctx from rfl]
    rw [he, normalizeVal_ctx]
  · rw [setObject_notActive s k o hA]
    exact ⟨[], by simp [PyErr_Restore], by simp⟩

/-- Installation always records the raised kind as the active type. -/
theorem setObject_curType (s : ExcState) (k : ExcKind) (o : PyVal) :
    (PyErr_SetObject s k o).curType = some k := by
  by_cases hA : s.curVal ≠ PyVal.nullV ∧ s.curVal ≠ PyVal.noneV
  · rw [setObject_active s k o hA]; rfl
  · rw [setObject_notActive s k o hA]; rfl

/-- The chain step does not change the traceback attributes. -/
theorem chainStep_tbAttr (s2 : ExcState) (ev v : PyVal) :
    (chainStep s2 ev v).tbAttr = s2.tbAttr := by
  unfold chainStep
  split
  · rcases chainUnlink_cases v (s2.ctx.length + 1) ev s2 with h | ⟨u, hu, hv, h⟩ <;>
      rw [h] <;> rcases v with _ | _ | t | n | xs | vb <;> rfl
  · rfl

/-- The chain step does not change the allocation log. -/
theorem chainStep_alloc (s2 : ExcState) (ev v : PyVal) :
    (chainStep s2 ev v).alloc = s2.alloc := by
  unfold chainStep
  split
  · rcases chainUnlink_cases v (s2.ctx.length + 1) ev s2 with h | ⟨u, hu, hv, h⟩ <;>
      rw [h] <;> rcases v with _ | _ | t | n | xs | vb <;> rfl
  · rfl

/-- A traceback read only depends on the traceback attributes. -/
theorem getTraceback_congr (s1 s2 : ExcState) (v : PyVal)
    (h : s1.tbAttr = s2.tbAttr) :
    PyException_GetTraceback s1 v = PyException_GetTraceback s2 v := by
  rcases v with _ | _ | t | n | xs | i <;> simp [PyException_GetTraceback, h]

theorem lookupA_append {β : Type} (l1 l2 : List (Nat × β)) (i : Nat) :
    lookupA (l1 ++ l2) i =
      match lookupA l1 i with
      | some v => some v
      | none => lookupA l2 i := by
  induction l1 with
  | nil => rfl
  | cons p rest ih =>
    rcases p with ⟨k, v⟩
    by_cases hk : k = i <;> simp [lookupA, hk, ih]

theorem lookupA_mem {β : Type} (l : List (Nat × β)) (i : Nat) (v : β)
    (h : lookupA l i = some v) : (i, v) ∈ l := by
  induction l with
  | nil => simp [lookupA] at h
  | cons p rest ih =>
    rcases p with ⟨k, w⟩
    by_cases hk : k = i
    · subst hk
      simp [lookupA] at h
      subst h
      exact List.mem_cons_self _ _
    · simp [lookupA, hk] at h
      exact List.mem_cons_of_mem _ (ih h)

/-- No record is its own context. -/
def NoSelfLoop (s : ExcState) : Prop :=
  ∀ j, getCtx s j ≠ PyVal.exc j

theorem noSelfLoop_preserved (s : ExcState) (k : ExcKind) (o : PyVal)
    (h : NoSelfLoop s) : NoSelfLoop (PyErr_SetObject s k o) := by
  intro j
  rcases setObject_ctx_entries s k o with ⟨entries, he, hp⟩
  unfold getCtx
  rw [he, lookupA_append]
  rcases hl : lookupA entries j with _ | v
  · exact h j
  · have := hp (j, v) (lookupA_mem entries j v hl)
    simpa using this

/-- The per-call raise sequence: fold the chainer over a list of
`(kind, raw value)` raises starting from the cleared state. -/
def raiseSeq (raises : List (ExcKind × PyVal)) : ExcState :=
  raises.foldl (fun s kv => PyErr_SetObject s kv.1 kv.2) initExcState

theorem raiseSeq_noSelfLoop (raises : List (ExcKind × PyVal)) :
    NoSelfLoop (raiseSeq raises) := by
  have main : ∀ (l : List (ExcKind × PyVal)) (s : ExcState), NoSelfLoop s →
      NoSelfLoop (l.foldl (fun s kv => PyErr_SetObject s kv.1 kv.2) s) := by
    intro l
    induction l with
    | nil => intro s hs; exact hs
    | cons kv rest ih =>
      intro s hs
      exact ih _ (noSelfLoop_preserved s kv.1 kv.2 hs)
  refine main raises initExcState ?_
  intro j
  simp [getCtx, initExcState, lookupA]

theorem chainStep_of_ne (s2 : ExcState) (ev v : PyVal) (h : ev ≠ v) :
    chainStep s2 ev v =
      PyException_SetContext (chainUnlink s2 ev v (s2.ctx.length + 1)) v ev := by
  unfold chainStep
  rw [if_pos h]

/-- C3: raising a distinct record B while record A is active installs B as
the active value with the raised kind, links A as B's context, and carries
B's own traceback into the installed state. -/
theorem c3_chain_b_over_a (s : ExcState) (k : ExcKind) (ia ib : Nat)
    (hA : s.curVal = .exc ia) (hne : ia ≠ ib) :
    (PyErr_SetObject s k (.exc ib)).curVal = .exc ib ∧
    (PyErr_SetObject s k (.exc ib)).curType = some k ∧
    getCtx (PyErr_SetObject s k (.exc ib)) ib = .exc ia ∧
    (PyErr_SetObject s k (.exc ib)).curTb = PyException_GetTraceback s (.exc ib) := by
  have hAa : s.curVal ≠ PyVal.nullV ∧ s.curVal ≠ PyVal.noneV := by
    rw [hA]; exact ⟨by simp, by simp⟩
  have hnorm : normalizeVal s k (.exc ib) = (s, .exc ib) :=
    normalizeVal_inst s k (.exc ib) rfl
  have hvne : s.curVal ≠ PyVal.exc ib := by
    rw [hA]; simpa using hne
  rw [setObject_active s k (.exc ib) hAa]
  rw [hnorm]
  rw [chainStep_of_ne s s.curVal (.exc ib) hvne]
  refine ⟨rfl, rfl, ?_, ?_⟩
  · show getCtx (PyException_SetContext
        (chainUnlink s s.curVal (.exc ib) (s.ctx.length + 1)) (.exc ib) s.curVal) ib = .exc ia
    rcases chainUnlink_cases (.exc ib) (s.ctx.length + 1) s.curVal s with h | ⟨u, hu, hv, h⟩ <;>
      rw [h] <;> simp [PyException_SetContext, getCtx, lookupA, hA]
  · have h1 : PyVal.exc ib ≠ PyVal.nullV ∧
        PyExceptionInstance_Check (PyVal.exc ib) = true := ⟨by simp, rfl⟩
    rw [if_pos h1]
    show PyException_GetTraceback
        (PyException_SetContext (chainUnlink s s.curVal (.exc ib) (s.ctx.length + 1))
          (.exc ib) s.curVal) (.exc ib) = _
    apply getTraceback_congr
    rcases chainUnlink_cases (.exc ib) (s.ctx.length + 1) s.curVal s with h | ⟨u, hu, hv, h⟩ <;>
      rw [h] <;> rfl

/-- Concrete state with record 0 active, used by the C3 witness. -/
def stateA : ExcState := { initExcState with curVal := .exc 0, curType := some .SyntaxError }

/-- C3 witness: a concrete run of the A-then-B scenario. -/
theorem c3_chain_b_over_a_witness :
    (PyErr_SetObject stateA .TabError (.exc 1)).curVal = .exc 1 ∧
    (PyErr_SetObject stateA .TabError (.exc 1)).curType = some .TabError ∧
    getCtx (PyErr_SetObject stateA .TabError (.exc 1)) 1 = .exc 0 ∧
    (PyErr_SetObject stateA .TabError (.exc 1)).curTb =
      PyException_GetTraceback stateA (.exc 1) :=
  c3_chain_b_over_a stateA .TabError 0 1 rfl (by decide)

/-- C10: raising the very same record that is already active skips the
whole chain-manipulation block (part one), and consequently no record is
ever its own context after any finite raise sequence from the cleared
state (part two). -/
theorem c10_self_raise_skips_chain :
    (∀ (s : ExcState) (k : ExcKind) (v : PyVal),
      s.curVal = v → PyExceptionInstance_Check v = true →
      (PyErr_SetObject s k v).ctx = s.ctx ∧ (PyErr_SetObject s k v).curVal = v) ∧
    (∀ (raises : List (ExcKind × PyVal)) (j : Nat),
      getCtx (raiseSeq raises) j ≠ PyVal.exc j) := by
  constructor
  · intro s k v hcur hinst
    have hAa : s.curVal ≠ PyVal.nullV ∧ s.curVal ≠ PyVal.noneV := by
      rcases v with _ | _ | t | n | xs | i <;> simp_all [PyExceptionInstance_Check]
    rw [setObject_active s k v hAa, normalizeVal_inst s k v hinst]
    have hskip : chainStep s s.curVal v = s := by
      unfold chainStep
      rw [if_neg]
      simp [hcur]
    rw [hskip]
    exact ⟨rfl, rfl⟩
  · exact fun raises j => raiseSeq_noSelfLoop raises j

/-- Concrete state with record 5 active and chained to record 2, used by
the C10 witness. -/
def stateSelf : ExcState := { initExcState with curVal := .exc 5, ctx := [(5, .exc 2)] }

/-- C10 witness: re-raising the active record leaves its chain intact. -/
theorem c10_self_raise_skips_chain_witness :
    (PyErr_SetObject stateSelf .SyntaxError (.exc 5)).ctx = [(5, PyVal.exc 2)] ∧
    (PyErr_SetObject stateSelf .SyntaxError (.exc 5)).curVal = .exc 5 :=
  c10_self_raise_skips_chain.1 stateSelf .SyntaxError (.exc 5) rfl rfl

/-- C8 (amended): with an exception active, a raw non-instance value is
deterministically coerced before installation (absent value via zero
constructor arguments, a tuple spread as the arguments, anything else as a
single argument) and the coerced instance is what gets installed; with no
exception active, the raw value is installed uncoerced and nothing is
constructed. -/
theorem c8_coercion_only_when_active (s : ExcState) (k : ExcKind) (o : PyVal) :
    (s.curVal ≠ PyVal.nullV ∧ s.curVal ≠ PyVal.noneV →
      PyExceptionInstance_Check o = false →
      (PyErr_SetObject s k o).curVal = .exc s.nextId ∧
      lookupA (PyErr_SetObject s k o).alloc s.nextId = some (k, coerceArgs o) ∧
      coerceArgs .nullV = [] ∧ coerceArgs .noneV = [] ∧
      (∀ xs, coerceArgs (.tuple xs) = xs) ∧
      (∀ t, coerceArgs (.str t) = [.str t]) ∧ (∀ n, coerceArgs (.int n) = [.int n])) ∧
    (¬ (s.curVal ≠ PyVal.nullV ∧ s.curVal ≠ PyVal.noneV) →
      (PyErr_SetObject s k o).curVal = o ∧
      (PyErr_SetObject s k o).alloc = s.alloc) := by
  constructor
  · intro hA hRaw
    have hco : o = PyVal.nullV ∨ ¬ PyExceptionInstance_Check o := Or.inr (by simp [hRaw])
    rcases normalizeVal_fresh s k o hco with ⟨h2, hnext, hall⟩
    rw [setObject_active s k o hA]
    refine ⟨by rw [show (PyErr_Restore _ (some k) (normalizeVal s k o).2 _).curVal =
      (normalizeVal s k o).2 from rfl, h2], ?_, rfl, rfl, fun xs => rfl, fun t => rfl,
      fun n => rfl⟩
    rw [show (PyErr_Restore
        (chainStep (normalizeVal s k o).1 s.curVal (normalizeVal s k o).2) (some k)
        (normalizeVal s k o).2 _).alloc =
        (chainStep (normalizeVal s k o).1 s.curVal (normalizeVal s k o).2).alloc from rfl]
    rw [chainStep_alloc, hall]
    simp [lookupA]
  · intro hA
    have hnv : NoActiveVal s := by
      unfold NoActiveVal
      by_cases h0 : s.curVal = PyVal.nullV
      · exact Or.inl h0
      · by_cases h1 : s.curVal = PyVal.noneV
        · exact Or.inr h1
        · exact absurd ⟨h0, h1⟩ hA
    have h := setObject_noActive_val s k o hnv
    exact ⟨h.1, h.2.2.2⟩

/-- C8 witness: with a `SyntaxError` active, raising a raw tuple builds
the instance from the spread tuple and installs it. -/
theorem c8_coercion_only_when_active_witness :
    (PyErr_SetObject stateA .MemoryError (.tuple [.str "m", .int 2])).curVal =
      .exc stateA.nextId ∧
    lookupA (PyErr_SetObject stateA .MemoryError (.tuple [.str "m", .int 2])).alloc
      stateA.nextId = some (.MemoryError, coerceArgs (.tuple [.str "m", .int 2])) :=
  have h := (c8_coercion_only_when_active stateA .MemoryError
    (.tuple [.str "m", .int 2])).1 (by decide) rfl
  ⟨h.1, h.2.1⟩

/-- C8 counterexample: with no exception active, a raw `None` is installed
as-is, not replaced by a zero-argument constructed instance — the claim's
"coercion applies both when no exception is active and when one is active"
fails. -/
theorem c8_counterexample :
    (PyErr_SetObject initExcState .SyntaxError .noneV).curVal = .noneV ∧
    PyExceptionInstance_Check (PyErr_SetObject initExcState .SyntaxError .noneV).curVal
      = false ∧
    (PyErr_SetObject initExcState .SyntaxError .noneV).alloc = [] := by decide

theorem raise_msg_of_eq (s : ExcState) (err : ErrorDetail) (K : ExcKind) (m : String)
    (h : NoActiveVal s)
    (hred : err_input s err = PyErr_SetObject s K (.tuple [.str m, posTuple err])) :
    raisesWithMsg s err K m := by
  unfold raisesWithMsg
  rw [hred, setObject_tuple_noActive s K _ h]
  exact ⟨rfl, ⟨posTuple err, rfl⟩⟩

/-- C1 (amended): the error table of the classifier, row by row, plus the
two fall-through behaviours: any code outside the switch (including
`E_OK`) raises the generic `"unknown parsing error"` SyntaxError, while
`E_ERROR` alone returns silently without raising. -/
theorem c1_error_table (err : ErrorDetail) (s : ExcState) (h : NoActiveVal s) :
    (err.error = .E_SYNTAX → err.expected = (INDENT : Int) →
      raisesWithMsg s err .IndentationError "expected an indented block") ∧
    (err.error = .E_SYNTAX → err.expected ≠ (INDENT : Int) → err.token = (INDENT : Int) →
      raisesWithMsg s err .IndentationError "unexpected indent") ∧
    (err.error = .E_SYNTAX → err.expected ≠ (INDENT : Int) → err.token ≠ (INDENT : Int) →
      err.token = (DEDENT : Int) →
      raisesWithMsg s err .IndentationError "unexpected unindent") ∧
    (err.error = .E_SYNTAX → err.expected ≠ (INDENT : Int) → err.token ≠ (INDENT : Int) →
      err.token ≠ (DEDENT : Int) →
      raisesWithMsg s err .SyntaxError "invalid syntax") ∧
    (err.error = .E_TOKEN → raisesWithMsg s err .SyntaxError "invalid token") ∧
    (err.error = .E_EOFS →
      raisesWithMsg s err .SyntaxError "EOF while scanning triple-quoted string literal") ∧
    (err.error = .E_EOLS →
      raisesWithMsg s err .SyntaxError "EOL while scanning string literal") ∧
    (err.error = .E_EOF → raisesWithMsg s err .SyntaxError "unexpected EOF while parsing") ∧
    (err.error = .E_OVERFLOW → raisesWithMsg s err .SyntaxError "expression too long") ∧
    (err.error = .E_LINECONT →
      raisesWithMsg s err .SyntaxError "unexpected character after line continuation character") ∧
    (err.error = .E_IDENTIFIER →
      raisesWithMsg s err .SyntaxError "invalid character in identifier") ∧
    (err.error = .E_BADSINGLE →
      raisesWithMsg s err .SyntaxError "multiple statements found while compiling a single statement") ∧
    (err.error = .E_TABSPACE →
      raisesWithMsg s err .TabError "inconsistent use of tabs and spaces in indentation") ∧
    (err.error = .E_DEDENT →
      raisesWithMsg s err .IndentationError "unindent does not match any outer indentation level") ∧
    (err.error = .E_TOODEEP →
      raisesWithMsg s err .IndentationError "too many levels of indentation") ∧
    (err.error = .E_NOMEM → (err_input s err).curType = some .MemoryError) ∧
    (∀ n, err.error = .other n →
      raisesWithMsg s err .SyntaxError "unknown parsing error") ∧
    (err.error = .E_OK → raisesWithMsg s err .SyntaxError "unknown parsing error") ∧
    (err.error = .E_ERROR → err_input s err = s) := by
  refine ⟨?_, ?_, ?_, ?_, ?_, ?_, ?_, ?_, ?_, ?_, ?_, ?_, ?_, ?_, ?_, ?_, ?_, ?_, ?_⟩
  · intro he h1
    exact raise_msg_of_eq s err _ _ h (by simp [err_input, he, h1])
  · intro he h1 h2
    refine raise_msg_of_eq s err _ _ h ?_
    simp only [INDENT, DEDENT, Nat.cast_ofNat] at h1 h2
    simp [err_input, he, h1, h2, INDENT, DEDENT]
  · intro he h1 h2 h3
    refine raise_msg_of_eq s err _ _ h ?_
    simp only [INDENT, DEDENT, Nat.cast_ofNat] at h1 h2 h3
    simp [err_input, he, h1, h2, h3, INDENT, DEDENT]
  · intro he h1 h2 h3
    refine raise_msg_of_eq s err _ _ h ?_
    simp only [INDENT, DEDENT, Nat.cast_ofNat] at h1 h2 h3
    simp [err_input, he, h1, h2, h3, INDENT, DEDENT]
  · intro he
    exact raise_msg_of_eq s err _ _ h (by simp [err_input, he])
  · intro he
    exact raise_msg_of_eq s err _ _ h (by simp [err_input, he])
  · intro he
    exact raise_msg_of_eq s err _ _ h (by simp [err_input, he])
  · intro he
    exact raise_msg_of_eq s err _ _ h (by simp [err_input, he])
  · intro he
    exact raise_msg_of_eq s err _ _ h (by simp [err_input, he])
  · intro he
    exact raise_msg_of_eq s err _ _ h (by simp [err_input, he])
  · intro he
    exact raise_msg_of_eq s err _ _ h (by simp [err_input, he])
  · intro he
    exact raise_msg_of_eq s err _ _ h (by simp [err_input, he])
  · intro he
    exact raise_msg_of_eq s err _ _ h (by simp [err_input, he])
  · intro he
    exact raise_msg_of_eq s err _ _ h (by simp [err_input, he])
  · intro he
    exact raise_msg_of_eq s err _ _ h (by simp [err_input, he])
  · intro he
    have hred : err_input s err = PyErr_SetNone s .MemoryError := by
      simp [err_input, he]
    rw [hred]
    exact setObject_curType s .MemoryError .nullV
  · intro n he
    exact raise_msg_of_eq s err _ _ h (by simp [err_input, he])
  · intro he
    exact raise_msg_of_eq s err _ _ h (by simp [err_input, he])
  · intro he
    simp [err_input, he]

/-- C1 witness: classifying a concrete `E_TOKEN` detail raises
`SyntaxError("invalid token")`. -/
theorem c1_error_table_witness :
    raisesWithMsg initExcState { error := .E_TOKEN } .SyntaxError "invalid token" :=
  (c1_error_table { error := .E_TOKEN } initExcState (Or.inl rfl)).2.2.2.2.1 rfl

/-- C1 counterexample: `E_ERROR` is a non-OK error kind outside the spec's
table, yet the classifier drops it silently instead of raising the generic
`"unknown parsing error"` SyntaxError. -/
theorem c1_error_table_counterexample :
    err_input initExcState { error := .E_ERROR } = initExcState ∧
    (err_input initExcState { error := .E_ERROR }).curType = none ∧
    ECode.E_ERROR ≠ ECode.E_OK := by decide

/-- C4 (amended): `E_ERROR` returns silently leaving the state unchanged;
`INTERRUPTED` raises `KeyboardInterrupt` exactly when no exception is
active (otherwise it is a no-op); `OK` falls through to the generic
`"unknown parsing error"` raise; and apart from `E_ERROR` and the
no-op `INTERRUPTED` case, classification always installs an exception. -/
theorem c4_nonraising_cases (s : ExcState) (err : ErrorDetail) :
    (err.error = .E_ERROR → err_input s err = s) ∧
    (err.error = .E_INTR → PyErr_Occurred s = false →
      err_input s err = PyErr_SetNone s .KeyboardInterrupt ∧
      (err_input s err).curType = some .KeyboardInterrupt) ∧
    (err.error = .E_INTR → PyErr_Occurred s = true → err_input s err = s) ∧
    (NoActiveVal s → err.error = .E_OK →
      raisesWithMsg s err .SyntaxError "unknown parsing error") ∧
    (err.error ≠ .E_ERROR → ¬ (err.error = .E_INTR ∧ PyErr_Occurred s = true) →
      (err_input s err).curType.isSome = true) := by
  refine ⟨?_, ?_, ?_, ?_, ?_⟩
  · intro he
    simp [err_input, he]
  · intro he hocc
    have hred : err_input s err = PyErr_SetNone s .KeyboardInterrupt := by
      simp [err_input, he, hocc]
    refine ⟨hred, ?_⟩
    rw [hred]
    exact setObject_curType s .KeyboardInterrupt .nullV
  · intro he hocc
    simp [err_input, he, hocc]
  · intro h he
    exact raise_msg_of_eq s err _ _ h (by simp [err_input, he])
  · intro h1 h2
    rcases herr : err.error with _ | _ | _ | _ | _ | _ | _ | _ | _ | _ | _ | _ | _ | _ | _ | _ | _ | _ | n
    case E_ERROR => exact absurd herr h1
    case E_INTR =>
      have hocc : PyErr_Occurred s = false := by
        rcases hoc : PyErr_Occurred s with _ | _
        · rfl
        · exact absurd ⟨herr, hoc⟩ h2
      simp [err_input, herr, hocc, PyErr_SetNone, setObject_curType]
    all_goals simp [err_input, herr, PyErr_SetNone, setObject_curType]

/-- C4 witness: classifying `E_INTR` with an empty slot raises
`KeyboardInterrupt`, and classifying `E_ERROR` is silent. -/
theorem c4_nonraising_cases_witness :
    (err_input initExcState { error := .E_INTR } =
      PyErr_SetNone initExcState .KeyboardInterrupt ∧
     (err_input initExcState { error := .E_INTR }).curType = some .KeyboardInterrupt) ∧
    err_input initExcState { error := .E_ERROR } = initExcState :=
  ⟨(c4_nonraising_cases initExcState { error := .E_INTR }).2.1 rfl rfl,
   (c4_nonraising_cases initExcState { error := .E_ERROR }).1 rfl⟩

/-- C4 counterexample: classifying an `ErrorDetail` whose kind is `OK`
(`E_OK`, the initial kind) does not return silently — it raises the
generic SyntaxError, changing the exception state. -/
theorem c4_nonraising_cases_counterexample :
    (err_input initExcState { error := .E_OK }).curType = some .SyntaxError ∧
    err_input initExcState { error := .E_OK } ≠ initExcState := by decide

/-- Successor along context links: the non-null context of `v`, if any
(one step of the chain walk in `PyErr_SetObject`). -/
def pvSucc (s : ExcState) (v : PyVal) : Option PyVal :=
  match PyException_GetContext s v with
  | .nullV => none
  | c => some c

/-- Iterated successor in an abstract context graph. -/
def gIter (g : PyVal → Option PyVal) : Nat → PyVal → Option PyVal
  | 0, v => some v
  | k + 1, v =>
    match g v with
    | none => none
    | some c => gIter g k c

/-- The walk from `v` reaches a link-free record within the given fuel. -/
def gEnds (g : PyVal → Option PyVal) : Nat → PyVal → Bool
  | 0, _ => false
  | f + 1, v =>
    match g v with
    | none => true
    | some c => gEnds g f c

/-- The records visited by the walk from `v` within the given fuel. -/
def gChain (g : PyVal → Option PyVal) : Nat → PyVal → List PyVal
  | 0, _ => []
  | f + 1, v =>
    v :: (match g v with
          | none => []
          | some c => gChain g f c)

/-- The walk from `v` terminates. -/
def GTerm (g : PyVal → Option PyVal) (v : PyVal) : Prop :=
  ∃ f, gEnds g f v = true

/-- Every walk in the state's context graph terminates. -/
def AllTerm (s : ExcState) : Prop :=
  ∀ v, GTerm (pvSucc s) v

theorem gEnds_mono (g : PyVal → Option PyVal) :
    ∀ (f f' : Nat) (v : PyVal), f ≤ f' → gEnds g f v = true → gEnds g f' v = true := by
  intro f
  induction f with
  | zero => intro f' v _ h; simp [gEnds] at h
  | succ f ih =>
    intro f' v hle h
    match f', hle with
    | f' + 1, hle =>
      rcases hc : g v with _ | c
      · simp [gEnds, hc]
      · simp only [gEnds, hc] at h ⊢
        exact ih f' c (Nat.succ_le_succ_iff.mp hle) h

theorem mem_gChain_iter (g : PyVal → Option PyVal) :
    ∀ (f : Nat) (v x : PyVal), x ∈ gChain g f v → ∃ k, gIter g k v = some x := by
  intro f
  induction f with
  | zero => intro v x h; simp [gChain] at h
  | succ f ih =>
    intro v x h
    rcases hc : g v with _ | c
    · simp [gChain, hc] at h
      exact ⟨0, by simp [gIter, h]⟩
    · simp only [gChain, hc] at h
      rcases List.mem_cons.mp h with rfl | h
      · exact ⟨0, rfl⟩
      · rcases ih c x h with ⟨k, hk⟩
        exact ⟨k + 1, by simp [gIter, hc, hk]⟩

theorem gIter_add (g : PyVal → Option PyVal) :
    ∀ (m n : Nat) (v : PyVal),
      gIter g (m + n) v =
        match gIter g m v with
        | none => none
        | some w => gIter g n w := by
  intro m
  induction m with
  | zero => intro n v; simp [gIter]
  | succ m ih =>
    intro n v
    have hadd : m + 1 + n = (m + n) + 1 := by omega
    rw [hadd]
    rcases hc : g v with _ | c
    · simp [gIter, hc]
    · simp only [gIter, hc]
      exact ih n c

theorem gEnds_iter (g : PyVal → Option PyVal) :
    ∀ (f : Nat) (v : PyVal), gEnds g f v = true →
      ∃ n, n < f ∧ ∃ w, gIter g n v = some w ∧ g w = none := by
  intro f
  induction f with
  | zero => intro v h; simp [gEnds] at h
  | succ f ih =>
    intro v h
    rcases hc : g v with _ | c
    · exact ⟨0, Nat.succ_pos f, v, rfl, hc⟩
    · simp only [gEnds, hc] at h
      rcases ih c h with ⟨n, hn, w, hw, hwn⟩
      exact ⟨n + 1, Nat.succ_lt_succ hn, w, by simp [gIter, hc, hw], hwn⟩

theorem gIter_none_after (g : PyVal → Option PyVal) (n : Nat) (v w : PyVal)
    (hw : gIter g n v = some w) (hwn : g w = none) :
    ∀ m, n < m → gIter g m v = none := by
  intro m hm
  have : m = n + (m - n) := by omega
  rw [this, gIter_add g n (m - n) v, hw]
  have : m - n = (m - n - 1) + 1 := by omega
  rw [this]
  show (match g w with
        | none => none
        | some c => gIter g (m - n - 1) c) = none
  rw [hwn]

theorem gIter_loop (g : PyVal → Option PyVal) (v c : PyVal) (k : Nat)
    (h1 : g v = some c) (h2 : gIter g k c = some v) :
    ∀ m, gIter g (m * (k + 1)) v = some v := by
  intro m
  induction m with
  | zero => simp [gIter]
  | succ m ih =>
    have : (m + 1) * (k + 1) = m * (k + 1) + (k + 1) := by ring
    rw [this, gIter_add g (m * (k + 1)) (k + 1) v, ih]
    show gIter g (k + 1) v = some v
    simp [gIter, h1, h2]

/-- Termination of a functional walk forces the visited records to be
pairwise distinct: a repeat would close a loop that never reaches the
chain's end. -/
theorem gEnds_nodup (g : PyVal → Option PyVal) :
    ∀ (f : Nat) (v : PyVal), gEnds g f v = true → (gChain g f v).Nodup := by
  intro f
  induction f with
  | zero => intro v _; simp [gChain]
  | succ f ih =>
    intro v h
    rcases hc : g v with _ | c
    · simp [gChain, hc]
    · simp only [gEnds, hc] at h
      have hnd := ih c h
      have hnotmem : v ∉ gChain g f c := by
        intro hmem
        rcases mem_gChain_iter g f c v hmem with ⟨k, hk⟩
        have hloop := gIter_loop g v c k hc hk
        rcases gEnds_iter g (f + 1) v (by simp [gEnds, hc, h]) with ⟨n, hn, w, hw, hwn⟩
        have hnone := gIter_none_after g n v w hw hwn ((n + 1) * (k + 1))
          (by nlinarith [Nat.le_of_lt_succ hn])
        rw [hloop (n + 1)] at hnone
        exact Option.noConfusion hnone
      simp only [gChain, hc]
      exact List.nodup_cons.mpr ⟨hnotmem, hnd⟩

theorem gEnds_at_length (g : PyVal → Option PyVal) :
    ∀ (f : Nat) (v : PyVal), gEnds g f v = true →
      gEnds g ((gChain g f v).length) v = true := by
  intro f
  induction f with
  | zero => intro v h; simp [gEnds] at h
  | succ f ih =>
    intro v h
    rcases hc : g v with _ | c
    · simp [gChain, gEnds, hc]
    · simp only [gEnds, hc] at h
      simp only [gChain, hc, List.length_cons]
      simp only [gEnds, hc]
      exact ih c h

theorem gEnds_split (g : PyVal → Option PyVal) :
    ∀ (f : Nat) (v : PyVal), gEnds g f v = true →
      ∃ F l, gChain g f v = F ++ [l] ∧ (∀ x ∈ F, (g x).isSome = true) ∧ g l = none := by
  intro f
  induction f with
  | zero => intro v h; simp [gEnds] at h
  | succ f ih =>
    intro v h
    rcases hc : g v with _ | c
    · exact ⟨[], v, by simp [gChain, hc], by simp, hc⟩
    · simp only [gEnds, hc] at h
      rcases ih c h with ⟨F, l, hFl, hF, hl⟩
      refine ⟨v :: F, l, by simp [gChain, hc, hFl], ?_, hl⟩
      intro x hx
      rcases List.mem_cons.mp hx with rfl | hx
      · simp [hc]
      · exact hF x hx

theorem pvSucc_some_key (s : ExcState) (x c : PyVal) (h : pvSucc s x = some c) :
    ∃ i, x = PyVal.exc i ∧ lookupA s.ctx i = some c := by
  rcases x with _ | _ | t | n | xs | i
  · simp [pvSucc, PyException_GetContext] at h
  · simp [pvSucc, PyException_GetContext] at h
  · simp [pvSucc, PyException_GetContext] at h
  · simp [pvSucc, PyException_GetContext] at h
  · simp [pvSucc, PyException_GetContext] at h
  · refine ⟨i, rfl, ?_⟩
    rcases hl : lookupA s.ctx i with _ | c'
    · simp [pvSucc, PyException_GetContext, getCtx, hl] at h
    · have : getCtx s i = c' := by simp [getCtx, hl]
      rcases hc' : c' with _ | _ | _ | _ | _ | _ <;>
        (try (subst hc'; simp [pvSucc, PyException_GetContext, getCtx, hl] at h)) <;>
        simp_all [pvSucc, PyException_GetContext, getCtx, hl]

theorem lookupA_isSome_mem_keys {β : Type} (l : List (Nat × β)) (i : Nat) (c : β)
    (h : lookupA l i = some c) : i ∈ l.map Prod.fst := by
  induction l with
  | nil => simp [lookupA] at h
  | cons p rest ih =>
    rcases p with ⟨k, w⟩
    by_cases hk : k = i
    · subst hk; simp
    · simp only [lookupA, if_neg hk] at h
      simpa using Or.inr (ih h)

/-- A terminating, duplicate-free walk cannot visit more records than the
state has context entries, plus the final link-free record. -/
theorem gChain_length_le (s : ExcState) (f : Nat) (v : PyVal)
    (h : gEnds (pvSucc s) f v = true) :
    (gChain (pvSucc s) f v).length ≤ s.ctx.length + 1 := by
  rcases gEnds_split (pvSucc s) f v h with ⟨F, l, hFl, hF, _⟩
  have hnd : F.Nodup := by
    have := gEnds_nodup (pvSucc s) f v h
    rw [hFl] at this
    exact (List.Nodup.sublist (List.sublist_append_left F [l]) this)
  have hlenAux : ∀ L : List PyVal, (∀ x ∈ L, (pvSucc s x).isSome = true) →
      (L.filterMap (fun x =>
        match x with
        | PyVal.exc i => some i
        | _ => none)).length = L.length := by
    intro L
    induction L with
    | nil => intro _; rfl
    | cons x L ihF =>
      intro hFx
      have hx : (pvSucc s x).isSome = true := hFx x (List.mem_cons_self x L)
      rcases hsx : pvSucc s x with _ | c
      · rw [hsx] at hx; simp at hx
      · rcases pvSucc_some_key s x c hsx with ⟨i, rfl, _⟩
        have := ihF (fun y hy => hFx y (List.mem_cons_of_mem _ hy))
        simp [List.filterMap_cons, this]
  have hlen := hlenAux F hF
  have hndk : (F.filterMap (fun x =>
      match x with
      | PyVal.exc i => some i
      | _ => none)).Nodup := by
    refine List.Nodup.filterMap ?_ hnd
    intro a a' b hb hb'
    rcases a with _ | _ | _ | _ | _ | i <;> simp_all
    rcases a' with _ | _ | _ | _ | _ | i' <;> simp_all
  have hsub : (F.filterMap (fun x =>
      match x with
      | PyVal.exc i => some i
      | _ => none)) ⊆ s.ctx.map Prod.fst := by
    intro i hi
    rcases List.mem_filterMap.mp hi with ⟨x, hx, hxi⟩
    have hxs : (pvSucc s x).isSome = true := hF x hx
    rcases hsx : pvSucc s x with _ | c
    · rw [hsx] at hxs; simp at hxs
    · rcases pvSucc_some_key s x c hsx with ⟨j, rfl, hlk⟩
      have : j = i := by simpa using hxi
      subst this
      exact lookupA_isSome_mem_keys s.ctx j c hlk
  have hle := (List.subperm_of_subset hndk hsub).length_le
  rw [hlen, List.length_map] at hle
  have : (gChain (pvSucc s) f v).length = F.length + 1 := by
    rw [hFl]; simp
  omega

/-- Under termination, the walk from any record ends within one more step
than the number of context entries. -/
theorem gEnds_within_ctx (s : ExcState) (v : PyVal) (h : GTerm (pvSucc s) v) :
    gEnds (pvSucc s) (s.ctx.length + 1) v = true := by
  rcases h with ⟨f, hf⟩
  have h1 := gEnds_at_length (pvSucc s) f v hf
  exact gEnds_mono (pvSucc s) _ _ v (gChain_length_le s f v hf) h1

theorem getCtx_setContext (s : ExcState) (u : Nat) (c : PyVal) (j : Nat) :
    getCtx (PyException_SetContext s (.exc u) c) j =
      if u = j then c else getCtx s j := by
  by_cases h : u = j <;> simp [PyException_SetContext, getCtx, lookupA, h]

theorem pvSucc_congr (s1 s2 : ExcState) (h : s1.ctx = s2.ctx) :
    pvSucc s1 = pvSucc s2 := by
  funext v
  rcases v with _ | _ | t | n | xs | i <;>
    simp [pvSucc, PyException_GetContext, getCtx, h]

theorem pvSucc_unlink_at (s : ExcState) (u : Nat) :
    pvSucc (PyException_SetContext s (.exc u) .nullV) (.exc u) = none := by
  simp [pvSucc, PyException_GetContext, getCtx_setContext]

theorem pvSucc_setContext_other (s : ExcState) (u : Nat) (c : PyVal) (x : PyVal)
    (h : x ≠ .exc u) :
    pvSucc (PyException_SetContext s (.exc u) c) x = pvSucc s x := by
  rcases x with _ | _ | t | n | xs | i
  · rfl
  · rfl
  · rfl
  · rfl
  · rfl
  · have hiu : ¬ u = i := fun hui => h (by rw [hui])
    simp [pvSucc, PyException_GetContext, getCtx_setContext, hiu]

theorem pvSucc_relink_at (s : ExcState) (u : Nat) (e : PyVal) (he : e ≠ .nullV) :
    pvSucc (PyException_SetContext s (.exc u) e) (.exc u) = some e := by
  have h := getCtx_setContext s u e u
  rw [if_pos rfl] at h
  rcases e with _ | _ | t | n | xs | i <;>
    simp_all [pvSucc, PyException_GetContext]

theorem gChain_congr (g g' : PyVal → Option PyVal) :
    ∀ (f : Nat) (v : PyVal), (∀ x ∈ gChain g f v, g' x = g x) →
      gChain g' f v = gChain g f v ∧ gEnds g' f v = gEnds g f v := by
  intro f
  induction f with
  | zero => intro v _; exact ⟨rfl, rfl⟩
  | succ f ih =>
    intro v hagree
    have hv : g' v = g v := hagree v (by
      rcases hc : g v with _ | c <;> simp [gChain, hc])
    rcases hc : g v with _ | c
    · constructor <;> simp [gChain, gEnds, hv, hc]
    · have hsub : ∀ x ∈ gChain g f c, g' x = g x := by
        intro x hx
        exact hagree x (by simp [gChain, hc, hx])
      rcases ih c hsub with ⟨h1, h2⟩
      constructor <;> simp [gChain, gEnds, hv, hc, h1, h2]

theorem gEnds_of_null_update (g g' : PyVal → Option PyVal)
    (hup : ∀ y, g' y = g y ∨ g' y = none) :
    ∀ (f : Nat) (v : PyVal), gEnds g f v = true → gEnds g' f v = true := by
  intro f
  induction f with
  | zero => intro v h; simp [gEnds] at h
  | succ f ih =>
    intro v h
    rcases hup v with hv | hv
    · rcases hc : g v with _ | c
      · simp [gEnds, hv, hc]
      · simp only [gEnds, hc] at h
        simp only [gEnds, hv, hc]
        exact ih c h
    · simp [gEnds, hv]

/-- Adding the edge `v0 -> e` preserves termination of every walk,
provided `v0` does not occur on the (terminating) walk from `e`. -/
theorem gTerm_relink (g g' : PyVal → Option PyVal) (v0 e : PyVal)
    (hat : g' v0 = some e) (hother : ∀ x, x ≠ v0 → g' x = g x)
    (fe : Nat) (hee : gEnds g fe e = true) (hnot : v0 ∉ gChain g fe e)
    (hall : ∀ x, GTerm g x) : ∀ x, GTerm g' x := by
  have hche : gEnds g' fe e = true := by
    rcases gChain_congr g g' fe e
        (fun x hx => hother x (fun hxv => hnot (hxv ▸ hx))) with ⟨_, hEq⟩
    rw [hEq]
    exact hee
  have main : ∀ (f : Nat) (x : PyVal), gEnds g f x = true → GTerm g' x := by
    intro f
    induction f with
    | zero => intro x h; simp [gEnds] at h
    | succ f ih =>
      intro x h
      by_cases hx : x = v0
      · subst hx
        exact ⟨fe + 1, by simp [gEnds, hat, hche]⟩
      · have hgx : g' x = g x := hother x hx
        rcases hc : g x with _ | c
        · exact ⟨1, by simp [gEnds, hgx, hc]⟩
        · simp only [gEnds, hc] at h
          rcases ih c h with ⟨fc, hfc⟩
          exact ⟨fc + 1, by simp [gEnds, hgx, hc, hfc]⟩
  intro x
  rcases hall x with ⟨f, hf⟩
  exact main f x hf

theorem pvSucc_of_getContext_ne (s : ExcState) (o : PyVal)
    (h : PyException_GetContext s o ≠ .nullV) :
    pvSucc s o = some (PyException_GetContext s o) := by
  rcases hg : PyException_GetContext s o with _ | _ | t | n | xs | i
  · exact absurd hg h
  all_goals simp [pvSucc, hg]

/-- Behaviour of the unlink walk on a terminating, duplicate-free chain:
it either leaves the state untouched or nulls the context of one chain
node, and afterwards the walk from the start still terminates and no
longer passes through the searched value. -/
theorem chainUnlink_walk (s : ExcState) (v : PyVal) :
    ∀ (fuel f : Nat) (o : PyVal), f ≤ fuel →
      gEnds (pvSucc s) f o = true →
      (gChain (pvSucc s) f o).Nodup →
      v ≠ o →
      (chainUnlink s o v fuel = s ∨
        ∃ u, chainUnlink s o v fuel = PyException_SetContext s (.exc u) .nullV ∧
          PyVal.exc u ∈ gChain (pvSucc s) f o) ∧
      gEnds (pvSucc (chainUnlink s o v fuel)) f o = true ∧
      v ∉ gChain (pvSucc (chainUnlink s o v fuel)) f o := by
  intro fuel
  induction fuel with
  | zero =>
    intro f o hle hE _ _
    have hf0 : f = 0 := Nat.le_zero.mp hle
    subst hf0
    simp [gEnds] at hE
  | succ fuel ih =>
    intro f o hle hE hN hvo
    rcases f with _ | fp
    · simp [gEnds] at hE
    have hdef : chainUnlink s o v (fuel + 1) =
        (if PyException_GetContext s o = .nullV then s
         else if PyException_GetContext s o = v then
           PyException_SetContext s o .nullV
         else chainUnlink s (PyException_GetContext s o) v fuel) := rfl
    by_cases h0 : PyException_GetContext s o = .nullV
    · have hsucc : pvSucc s o = none := by simp [pvSucc, h0]
      rw [hdef, if_pos h0]
      refine ⟨Or.inl rfl, hE, ?_⟩
      simp [gChain, hsucc]
      exact hvo
    · by_cases h1 : PyException_GetContext s o = v
      · rcases o with _ | _ | t | n | xs | u
        · exact absurd rfl h0
        · exact absurd rfl h0
        · exact absurd rfl h0
        · exact absurd rfl h0
        · exact absurd rfl h0
        rw [hdef, if_neg h0, if_pos h1]
        have hsucc' := pvSucc_unlink_at s u
        refine ⟨Or.inr ⟨u, rfl, by simp [gChain]⟩, ?_, ?_⟩
        · simp [gEnds, hsucc']
        · simp [gChain, hsucc']
          exact hvo
      · have hsucc : pvSucc s o = some (PyException_GetContext s o) :=
          pvSucc_of_getContext_ne s o h0
        have hEc : gEnds (pvSucc s) fp (PyException_GetContext s o) = true := by
          simpa [gEnds, hsucc] using hE
        have hchain : gChain (pvSucc s) (fp + 1) o =
            o :: gChain (pvSucc s) fp (PyException_GetContext s o) := by
          simp [gChain, hsucc]
        have hNo := List.nodup_cons.mp (hchain ▸ hN)
        have hvc : v ≠ PyException_GetContext s o := fun hv => h1 hv.symm
        have hlef : fp ≤ fuel := Nat.succ_le_succ_iff.mp hle
        rcases ih fp (PyException_GetContext s o) hlef hEc hNo.2 hvc with
          ⟨hshape, hends, hnot⟩
        rw [hdef, if_neg h0, if_neg h1]
        have hso : pvSucc (chainUnlink s (PyException_GetContext s o) v fuel) o =
            some (PyException_GetContext s o) := by
          rcases hshape with hsh | ⟨u, hsh, humem⟩
          · rw [hsh]; exact hsucc
          · rw [hsh]
            have hou : o ≠ PyVal.exc u := fun ho => hNo.1 (ho ▸ humem)
            rw [pvSucc_setContext_other s u .nullV o hou]
            exact hsucc
        refine ⟨?_, ?_, ?_⟩
        · rcases hshape with hsh | ⟨u, hsh, humem⟩
          · exact Or.inl hsh
          · exact Or.inr ⟨u, hsh, by rw [hchain]; exact List.mem_cons_of_mem _ humem⟩
        · simp [gEnds, hso, hends]
        · rw [show gChain (pvSucc (chainUnlink s (PyException_GetContext s o) v fuel))
              (fp + 1) o =
              o :: gChain (pvSucc (chainUnlink s (PyException_GetContext s o) v fuel))
                fp (PyException_GetContext s o) from by simp [gChain, hso]]
          intro hmem
          rcases List.mem_cons.mp hmem with hvoeq | hmem
          · exact hvo hvoeq
          · exact hnot hmem

theorem allTerm_of_ctx_eq (s1 s2 : ExcState) (h : s1.ctx = s2.ctx)
    (ha : AllTerm s2) : AllTerm s1 := by
  unfold AllTerm
  rw [pvSucc_congr s1 s2 h]
  exact ha

/-- The chain-manipulation step preserves termination of all walks. -/
theorem chainStep_allTerm (s2 : ExcState) (ev value : PyVal)
    (hall : AllTerm s2)
    (hev : ev ≠ PyVal.nullV)
    (hinst : PyExceptionInstance_Check value = true) :
    AllTerm (chainStep s2 ev value) := by
  by_cases hne : ev ≠ value
  · rw [chainStep_of_ne s2 ev value hne]
    have hEnds : gEnds (pvSucc s2) (s2.ctx.length + 1) ev = true :=
      gEnds_within_ctx s2 ev (hall ev)
    have hNod := gEnds_nodup (pvSucc s2) (s2.ctx.length + 1) ev hEnds
    have hvne : value ≠ ev := fun hv => hne hv.symm
    rcases chainUnlink_walk s2 value (s2.ctx.length + 1) (s2.ctx.length + 1) ev
      (le_refl _) hEnds hNod hvne with ⟨hshape, hends, hnot⟩
    have hall' : AllTerm (chainUnlink s2 ev value (s2.ctx.length + 1)) := by
      rcases hshape with hsh | ⟨u, hsh, _⟩
      · rw [hsh]; exact hall
      · rw [hsh]
        intro x
        rcases hall x with ⟨f, hf⟩
        refine ⟨f, gEnds_of_null_update (pvSucc s2) _ ?_ f x hf⟩
        intro y
        by_cases hy : y = PyVal.exc u
        · subst hy
          exact Or.inr (pvSucc_unlink_at s2 u)
        · exact Or.inl (pvSucc_setContext_other s2 u .nullV y hy)
    rcases value with _ | _ | t | n | xs | vb
    · simp [PyExceptionInstance_Check] at hinst
    · simp [PyExceptionInstance_Check] at hinst
    · simp [PyExceptionInstance_Check] at hinst
    · simp [PyExceptionInstance_Check] at hinst
    · simp [PyExceptionInstance_Check] at hinst
    exact gTerm_relink
      (pvSucc (chainUnlink s2 ev (.exc vb) (s2.ctx.length + 1)))
      (pvSucc (PyException_SetContext
        (chainUnlink s2 ev (.exc vb) (s2.ctx.length + 1)) (.exc vb) ev))
      (.exc vb) ev
      (pvSucc_relink_at _ vb ev hev)
      (fun y hy => pvSucc_setContext_other _ vb ev y hy)
      (s2.ctx.length + 1) hends hnot hall'
  · unfold chainStep
    rw [if_neg hne]
    exact hall

/-- Raising through the chainer preserves termination of all context
walks. -/
theorem setObject_allTerm (s : ExcState) (k : ExcKind) (o : PyVal)
    (h : AllTerm s) : AllTerm (PyErr_SetObject s k o) := by
  by_cases hA : s.curVal ≠ PyVal.nullV ∧ s.curVal ≠ PyVal.noneV
  · rw [setObject_active s k o hA]
    have hall1 : AllTerm (normalizeVal s k o).1 :=
      allTerm_of_ctx_eq _ s (normalizeVal_ctx s k o) h
    have hcs : AllTerm
        (chainStep (normalizeVal s k o).1 s.curVal (normalizeVal s k o).2) := by
      refine chainStep_allTerm _ s.curVal _ hall1 hA.1 (normalizeVal_isInst s k o)
    exact allTerm_of_ctx_eq _ _ rfl hcs
  · rw [setObject_notActive s k o hA]
    exact allTerm_of_ctx_eq _ _ rfl h

theorem initExcState_allTerm : AllTerm initExcState := by
  intro v
  have hsucc : pvSucc initExcState v = none := by
    rcases v with _ | _ | t | n | xs | i <;> rfl
  exact ⟨1, by simp [gEnds, hsucc]⟩

theorem raiseSeq_allTerm (raises : List (ExcKind × PyVal)) :
    AllTerm (raiseSeq raises) := by
  have main : ∀ (l : List (ExcKind × PyVal)) (s : ExcState), AllTerm s →
      AllTerm (l.foldl (fun s kv => PyErr_SetObject s kv.1 kv.2) s) := by
    intro l
    induction l with
    | nil => intro s hs; exact hs
    | cons kv rest ih =>
      intro s hs
      exact ih _ (setObject_allTerm s kv.1 kv.2 hs)
  exact main raises initExcState initExcState_allTerm

/-- C2: after any finite sequence of raises through the exception chainer
(from the cleared per-call state, and including raises made while a prior
exception is active), the context chain reachable from the active record
is finite and acyclic: the walk along successive `pvSucc` links reaches a
link-free record and visits pairwise distinct records on the way. -/
theorem c2_context_chain_acyclic (raises : List (ExcKind × PyVal)) :
    ∃ f, gEnds (pvSucc (raiseSeq raises)) f (raiseSeq raises).curVal = true ∧
      (gChain (pvSucc (raiseSeq raises)) f (raiseSeq raises).curVal).Nodup := by
  rcases raiseSeq_allTerm raises (raiseSeq raises).curVal with ⟨f, hf⟩
  exact ⟨f, hf, gEnds_nodup _ f _ hf⟩

/-- Start symbols (source lines 17-19). -/
def Py_single_input : Nat := 256

def Py_file_input : Nat := 257

def Py_eval_input : Nat := 258

/-- The Token Source state read and written by the Parse Driver
(spec section 6 interface): raw buffer, cursor, input length, line
bookkeeping, open indentation depth, pending-indent adjustment, terminal
error code and declared encoding. -/
structure TokState where
  buf : List Char := []
  cur : Nat := 0
  inp : Nat := 0
  lineno : Nat := 0
  line_start : Nat := 0
  indent : Nat := 0
  pendin : Int := 0
  done : ECode := .E_OK
  encoding : Option String := none
  deriving DecidableEq, Repr

/-- A Token Source implementation: `get_token` returns the updated state
and `(type, startOffset, endOffset)`. -/
def GetToken : Type := TokState → TokState × Nat × Nat × Nat

/-- The Grammar Engine interface consumed by the driver: `add_token` feeds
one token and reports an error code, `p_tree` exposes the completed tree,
`start` is the engine's initial state (`new Parser(g, start)`). -/
structure GrammarEngine (π : Type) (τ : Type) where
  initState : π
  add_token : π → Nat → String → Nat → Int → Int → π × ECode
  p_tree : π → Option τ

/-- One token as fed to the Grammar Engine:
`(type, text, line, column, expected hint)`. -/
structure FedToken where
  type : Nat
  text : String
  lineno : Nat
  col_offset : Int
  expected : Int
  deriving DecidableEq, Repr

/-- Result of one iteration of the driver loop. -/
structure StepOut (π : Type) where
  tok : TokState
  ps : π
  started : Nat
  err : ErrorDetail
  fed : Option FedToken
  stop : Bool

/-- The column computation of the driver (source lines 313-318): a token
starting at or after the recorded line start gets the difference as its
column; a token starting before it gets the unknown-offset sentinel
`-1`. -/
def computeColOffset (a line_start : Nat) : Int :=
  if a ≥ line_start then (a : Int) - (line_start : Int) else -1

/-- One iteration of the token-pull loop of `parsetok` (source lines
282-327): pull a token; an error token copies the Token Source's own code
and stops; an end-marker after at least one real token is substituted by a
statement terminator while scheduling the dedents; otherwise the token is
fed to the Grammar Engine with its text, line, column and expected hint,
and a non-OK engine answer records the offending token type (unless the
engine is Done) and stops. -/
def parsetokStep {π τ : Type} (g : GrammarEngine π τ) (get : GetToken)
    (tok0 : TokState) (ps : π) (started : Nat) (err : ErrorDetail) : StepOut π :=
  let r := get tok0
  let tok := r.1
  let type := r.2.1
  let a := r.2.2.1
  let b := r.2.2.2
  if type = ERRORTOKEN then
    { tok := tok, ps := ps, started := started,
      err := { err with error := tok.done }, fed := none, stop := true }
  else
    let sub : Nat × Nat × TokState :=
      if type = ENDMARKER ∧ started ≠ 0 then
        (NEWLINE, 0,
          if tok.indent ≠ 0 then
            { tok with pendin := -(tok.indent : Int), indent := 0 }
          else tok)
      else (type, 1, tok)
    let type := sub.1
    let started := sub.2.1
    let tok := sub.2.2
    let len := b - a
    let text := (if 0 < len then String.mk ((tok.buf.drop a).take len) else "") ++ "\x00"
    let col_offset : Int := computeColOffset a tok.line_start
    let fed : FedToken := { type := type, text := text, lineno := tok.lineno,
                            col_offset := col_offset, expected := err.expected }
    let res := g.add_token ps type text tok.lineno col_offset err.expected
    let err := { err with error := res.2 }
    if err.error ≠ ECode.E_OK then
      { tok := tok, ps := res.1, started := started,
        err := if err.error ≠ ECode.E_DONE then { err with token := (type : Int) } else err,
        fed := some fed, stop := true }
    else
      { tok := tok, ps := res.1, started := started, err := err,
        fed := some fed, stop := false }

/-- Result of the driver loop, with the trace of tokens fed to the
Grammar Engine. -/
structure LoopOut (π : Type) where
  tok : TokState
  ps : π
  started : Nat
  err : ErrorDetail
  trace : List FedToken
  stopped : Bool

/-- The token-pull loop of `parsetok`, iterated up to `fuel` times (the
source loops until an error token or a non-OK engine answer). -/
def parsetokLoop {π τ : Type} (g : GrammarEngine π τ) (get : GetToken) :
    Nat → TokState → π → Nat → ErrorDetail → LoopOut π
  | 0, tok, ps, started, err =>
    { tok := tok, ps := ps, started := started, err := err,
      trace := [], stopped := false }
  | fuel + 1, tok, ps, started, err =>
    let o := parsetokStep g get tok ps started err
    let fedHere : List FedToken :=
      match o.fed with
      | some f => [f]
      | none => []
    if o.stop then
      { tok := o.tok, ps := o.ps, started := o.started, err := o.err,
        trace := fedHere, stopped := true }
    else
      let rest := parsetokLoop g get fuel o.tok o.ps o.started o.err
      { tok := rest.tok, ps := rest.ps, started := rest.started, err := rest.err,
        trace := fedHere ++ rest.trace, stopped := rest.stopped }

/-- A trailing whitespace character of the single-statement scan
(source line 342): space, tab, newline or formfeed. -/
def isTrailWs (c : Char) : Bool :=
  c = ' ' || c = '\t' || c = '\n' || c = '\x0c'

/-- Advance the cursor over trailing whitespace (the inner `while` of the
single-statement check); the cursor past the end of the buffer reads a
falsy character and stops. -/
def skipWs (buf : List Char) (cur : Nat) : Nat :=
  if h : cur < buf.length then
    if isTrailWs (buf.get ⟨cur, h⟩) then skipWs buf (cur + 1) else cur
  else cur
termination_by buf.length - cur
decreasing_by omega

/-- Advance the cursor to the end of a comment (the `while` sucking up a
comment, stopping at a newline or at the end of the buffer). -/
def skipComment (buf : List Char) (cur : Nat) : Nat :=
  if h : cur < buf.length then
    if buf.get ⟨cur, h⟩ ≠ '\n' then skipComment buf (cur + 1) else cur
  else cur
termination_by buf.length - cur
decreasing_by omega

theorem skipWs_ge (buf : List Char) : ∀ cur, cur ≤ skipWs buf cur := by
  intro cur
  induction cur using skipWs.induct buf with
  | case1 cur h hws ih =>
    rw [skipWs, dif_pos h, if_pos hws]
    omega
  | case2 cur h hws =>
    rw [skipWs, dif_pos h, if_neg hws]
  | case3 cur h =>
    rw [skipWs, dif_neg h]

theorem skipComment_ge (buf : List Char) : ∀ cur, cur ≤ skipComment buf cur := by
  intro cur
  induction cur using skipComment.induct buf with
  | case1 cur h hnl ih =>
    rw [skipComment, dif_pos h, if_pos hnl]
    omega
  | case2 cur h hnl =>
    rw [skipComment, dif_pos h, if_neg hnl]
  | case3 cur h =>
    rw [skipComment, dif_neg h]

/-- The single-statement trailing-input scan of `parsetok` (source lines
337-361): skip whitespace; stop successfully at the end of the buffer;
a `#` comment runs to the end of the line and the scan continues; any
other character fails the scan.  Returns the final cursor and whether the
remaining input was only whitespace and comments. -/
def singleScan (buf : List Char) (cur : Nat) : Nat × Bool :=
  if h : skipWs buf cur < buf.length then
    if buf.get ⟨skipWs buf cur, h⟩ = '#' then
      singleScan buf (skipComment buf (skipWs buf cur + 1))
    else (skipWs buf cur, false)
  else (skipWs buf cur, true)
termination_by buf.length - cur
decreasing_by
  have h1 : cur ≤ skipWs buf cur := skipWs_ge buf cur
  have h3 : skipWs buf cur + 1 ≤ skipComment buf (skipWs buf cur + 1) :=
    skipComment_ge buf (skipWs buf cur + 1)
  omega

/-- Result of `parsetok` after the loop: the parse tree (if any), the
encoding-declaration wrapper node's payload (if the Token Source carried a
declared encoding), the final error record and Token Source state. -/
structure FinishOut (τ : Type) where
  tree : Option τ
  encodingWrap : Option String
  err : ErrorDetail
  tok : TokState

/-- The post-loop part of `parsetok` (source lines 329-391): on `E_DONE`
take the engine's tree and, in single-statement mode, scan the remaining
buffered input, discarding the tree with `E_BADSINGLE` on any non-trivial
remainder; when no tree results, force `E_EOF` whenever the Token Source's
done flag is `E_EOF` and populate the error record from the Token Source's
line, cursor and buffered text; otherwise wrap a declared encoding around
the tree, consuming it from the Token Source. -/
def parsetokFinish {π τ : Type} (g : GrammarEngine π τ) (start : Nat)
    (tok0 : TokState) (ps : π) (err0 : ErrorDetail) : FinishOut τ :=
  let stage : Option τ × ErrorDetail × TokState :=
    if err0.error = ECode.E_DONE then
      let n := g.p_tree ps
      if start = Py_single_input then
        let sc := singleScan tok0.buf tok0.cur
        if sc.2 then (n, err0, { tok0 with cur := sc.1 })
        else (none, { err0 with error := ECode.E_BADSINGLE }, { tok0 with cur := sc.1 })
      else (n, err0, tok0)
    else (none, err0, tok0)
  let n := stage.1
  let err := stage.2.1
  let tok := stage.2.2
  match n with
  | none =>
    let err1 := if tok.done = ECode.E_EOF then { err with error := ECode.E_EOF } else err
    { tree := none, encodingWrap := none,
      err := { err1 with
        lineno := tok.lineno,
        offset := tok.cur,
        text := some (if 0 < tok.inp then String.mk (tok.buf.take tok.inp) else "") },
      tok := tok }
  | some t =>
    match tok.encoding with
    | some enc =>
      { tree := some t, encodingWrap := some enc, err := err,
        tok := { tok with encoding := none } }
    | none =>
      { tree := some t, encodingWrap := none, err := err, tok := tok }

/-- `parsetok` from the source (lines 276-392): run the token-pull loop on
a fresh engine state, then the post-loop stage.  The trace of tokens fed
to the engine is returned alongside for the driver-level properties. -/
def parsetok {π τ : Type} (g : GrammarEngine π τ) (get : GetToken) (fuel : Nat)
    (tok : TokState) (start : Nat) (err_ret : ErrorDetail) :
    FinishOut τ × List FedToken :=
  let L := parsetokLoop g get fuel tok g.initState 0 err_ret
  (parsetokFinish g start L.tok L.ps L.err, L.trace)

/-- The token fed to the Grammar Engine by one driver iteration: the
end-marker after a started statement is replaced by a statement
terminator, the text is the token's slice of the buffer plus a NUL, and
the column comes from `computeColOffset`. -/
theorem parsetokStep_fed {π τ : Type} (g : GrammarEngine π τ) (get : GetToken)
    (tok0 tok1 : TokState) (ps : π) (started : Nat) (err : ErrorDetail)
    (ty a b : Nat) (hget : get tok0 = (tok1, ty, a, b)) (hty : ty ≠ ERRORTOKEN) :
    (parsetokStep g get tok0 ps started err).fed = some
      { type := if ty = ENDMARKER ∧ started ≠ 0 then NEWLINE else ty,
        text := (if 0 < b - a then String.mk ((tok1.buf.drop a).take (b - a)) else "") ++ "\x00",
        lineno := tok1.lineno,
        col_offset := computeColOffset a tok1.line_start,
        expected := err.expected } := by
  simp only [parsetokStep, hget]
  rw [if_neg hty]
  by_cases h1 : ty = ENDMARKER ∧ started ≠ 0
  · by_cases h2 : tok1.indent ≠ 0
    · by_cases h3 : (g.add_token ps NEWLINE
          ((if a < b then String.mk ((tok1.buf.drop a).take (b - a)) else "") ++ "\x00")
          tok1.lineno (computeColOffset a tok1.line_start) err.expected).2 = ECode.E_OK <;>
        simp [h1, h2, h3]
    · by_cases h3 : (g.add_token ps NEWLINE
          ((if a < b then String.mk ((tok1.buf.drop a).take (b - a)) else "") ++ "\x00")
          tok1.lineno (computeColOffset a tok1.line_start) err.expected).2 = ECode.E_OK <;>
        simp [h1, h2, h3]
  · by_cases h3 : (g.add_token ps ty
        ((if a < b then String.mk ((tok1.buf.drop a).take (b - a)) else "") ++ "\x00")
        tok1.lineno (computeColOffset a tok1.line_start) err.expected).2 = ECode.E_OK <;>
      simp [h1, h3]

/-- State effects of the end-of-input substitution: the started flag
resets and, when indentation levels are open, the pending-indent
adjustment becomes their negation while the indent depth resets. -/
theorem parsetokStep_endmarker {π τ : Type} (g : GrammarEngine π τ) (get : GetToken)
    (tok0 tok1 : TokState) (ps : π) (started : Nat) (err : ErrorDetail)
    (a b : Nat) (hget : get tok0 = (tok1, ENDMARKER, a, b)) (hst : started ≠ 0) :
    (parsetokStep g get tok0 ps started err).started = 0 ∧
    (parsetokStep g get tok0 ps started err).tok.pendin =
      (if tok1.indent ≠ 0 then -(tok1.indent : Int) else tok1.pendin) ∧
    (parsetokStep g get tok0 ps started err).tok.indent = 0 := by
  simp only [parsetokStep, hget]
  rw [if_neg (by decide : ¬ ENDMARKER = ERRORTOKEN)]
  have h1 : ENDMARKER = ENDMARKER ∧ started ≠ 0 := ⟨rfl, hst⟩
  by_cases h2 : tok1.indent ≠ 0
  · by_cases h3 : (g.add_token ps NEWLINE
        ((if a < b then String.mk ((tok1.buf.drop a).take (b - a)) else "") ++ "\x00")
        tok1.lineno (computeColOffset a tok1.line_start) err.expected).2 = ECode.E_OK <;>
      simp [h1, h2, h3]
  · by_cases h3 : (g.add_token ps NEWLINE
        ((if a < b then String.mk ((tok1.buf.drop a).take (b - a)) else "") ++ "\x00")
        tok1.lineno (computeColOffset a tok1.line_start) err.expected).2 = ECode.E_OK <;>
      simp [h1, h2, h3] <;> omega

/-- A Grammar Engine that accepts every token (used to observe the
driver's token stream). -/
def contEngine : GrammarEngine Unit Unit :=
  { initState := (), add_token := fun _ _ _ _ _ _ => ((), .E_OK),
    p_tree := fun _ => none }

/-- Concrete Token Source call used by the C9 witness. -/
def probeGet : GetToken := fun tok => (tok, 1, 1, 2)

/-- Concrete Token Source state used by the C9 witness. -/
def probeTok : TokState := { line_start := 3 }

/-- C9: the driver's column for a token starting before the recorded line
start is the unknown-offset sentinel `-1`, and for a token starting at or
after it, it is the difference of the offsets, which is non-negative. -/
theorem c9_column_sentinel {π τ : Type} (g : GrammarEngine π τ) (get : GetToken)
    (tok0 tok1 : TokState) (ps : π) (started : Nat) (err : ErrorDetail)
    (ty a b : Nat) (hget : get tok0 = (tok1, ty, a, b)) (hty : ty ≠ ERRORTOKEN) :
    ∃ f, (parsetokStep g get tok0 ps started err).fed = some f ∧
      f.col_offset = computeColOffset a tok1.line_start ∧
      (a < tok1.line_start → f.col_offset = -1) ∧
      (tok1.line_start ≤ a →
        f.col_offset = (a : Int) - (tok1.line_start : Int) ∧ 0 ≤ f.col_offset) := by
  refine ⟨_, parsetokStep_fed g get tok0 tok1 ps started err ty a b hget hty, rfl, ?_, ?_⟩
  · intro hlt
    show computeColOffset a tok1.line_start = -1
    unfold computeColOffset
    rw [if_neg (Nat.not_le.mpr hlt)]
  · intro hge
    constructor
    · show computeColOffset a tok1.line_start = (a : Int) - (tok1.line_start : Int)
      unfold computeColOffset
      rw [if_pos hge]
    · show 0 ≤ computeColOffset a tok1.line_start
      unfold computeColOffset
      rw [if_pos hge]
      omega

/-- C9 witness: a concrete token starting before the line start yields the
sentinel. -/
theorem c9_column_sentinel_witness :
    ∃ f, (parsetokStep contEngine probeGet probeTok () 0 {}).fed = some f ∧
      f.col_offset = computeColOffset 1 probeTok.line_start ∧
      (1 < probeTok.line_start → f.col_offset = -1) ∧
      (probeTok.line_start ≤ 1 →
        f.col_offset = (1 : Int) - (probeTok.line_start : Int) ∧ 0 ≤ f.col_offset) :=
  c9_column_sentinel contEngine probeGet probeTok probeTok () 0 {} 1 1 2 rfl (by decide)

/-- Modelled from the spec: the Token Source's behaviour at end of input
(section 6 interface): a negative pending-indent adjustment emits one
block-closing token per unit before anything else; once it is used up and
the input is exhausted, the end-marker is emitted and the terminal error
code becomes `E_EOF`. -/
def specGetToken : GetToken := fun tok =>
  if tok.pendin < 0 then
    ({ tok with pendin := tok.pendin + 1 }, DEDENT, tok.cur, tok.cur)
  else
    ({ tok with done := .E_EOF }, ENDMARKER, tok.cur, tok.cur)

/-- Unfolding of one non-stopping loop iteration at the trace level. -/
theorem parsetokLoop_trace_cont {π τ : Type} (g : GrammarEngine π τ) (get : GetToken)
    (fuel : Nat) (tok : TokState) (ps : π) (started : Nat) (err : ErrorDetail)
    (h : (parsetokStep g get tok ps started err).stop = false) :
    (parsetokLoop g get (fuel + 1) tok ps started err).trace =
      (match (parsetokStep g get tok ps started err).fed with
        | some f => [f]
        | none => []) ++
      (parsetokLoop g get fuel (parsetokStep g get tok ps started err).tok
        (parsetokStep g get tok ps started err).ps
        (parsetokStep g get tok ps started err).started
        (parsetokStep g get tok ps started err).err).trace := by
  simp only [parsetokLoop]
  rw [h]
  simp

/-- A full driver iteration against the always-continue engine. -/
theorem contStep (get : GetToken) (tok0 tok1 : TokState) (started : Nat)
    (err : ErrorDetail) (ty a b : Nat)
    (hget : get tok0 = (tok1, ty, a, b)) (hty : ty ≠ ERRORTOKEN) :
    parsetokStep contEngine get tok0 () started err =
      { tok := (if ty = ENDMARKER ∧ started ≠ 0 then
            (if tok1.indent ≠ 0 then
              { tok1 with pendin := -(tok1.indent : Int), indent := 0 }
            else tok1)
          else tok1)
        ps := ()
        started := if ty = ENDMARKER ∧ started ≠ 0 then 0 else 1
        err := { err with error := .E_OK }
        fed := some
          { type := if ty = ENDMARKER ∧ started ≠ 0 then NEWLINE else ty
            text := (if 0 < b - a then String.mk ((tok1.buf.drop a).take (b - a)) else "") ++ "\x00"
            lineno := tok1.lineno
            col_offset := computeColOffset a tok1.line_start
            expected := err.expected }
        stop := false } := by
  simp only [parsetokStep, hget]
  rw [if_neg hty]
  by_cases h1 : ty = ENDMARKER ∧ started ≠ 0
  · by_cases h2 : tok1.indent ≠ 0 <;> simp [h1, h2, contEngine]
  · simp [h1, contEngine]

/-- After the end-of-input substitution schedules `j` pending dedents, the
driver feeds exactly `j` dedent tokens, then the terminator produced by
the second end-marker arrival, then the end-marker itself. -/
theorem dedentRun : ∀ (j : Nat), 1 ≤ j →
    ∀ (started : Nat) (err : ErrorDetail) (buf : List Char)
      (cur inp lineno ls : Nat) (dn : ECode) (enc : Option String),
    (parsetokLoop contEngine specGetToken (j + 2)
      ⟨buf, cur, inp, lineno, ls, 0, -(j : Int), dn, enc⟩ () started err).trace.map FedToken.type
      = List.replicate j DEDENT ++ [NEWLINE, ENDMARKER] := by
  intro j
  induction j with
  | zero => intro h; omega
  | succ j ih =>
    intro _ started err buf cur inp lineno ls dn enc
    rcases Nat.eq_zero_or_pos j with hj0 | hjpos
    · subst hj0
      simp [parsetokLoop, parsetokStep, specGetToken, contEngine,
        DEDENT, NEWLINE, ENDMARKER, ERRORTOKEN]
    · have hc1 : -(((j + 1 : Nat)) : Int) < 0 := by omega
      have hget : specGetToken (⟨buf, cur, inp, lineno, ls, 0, -((j + 1 : Nat) : Int), dn, enc⟩ : TokState) =
          (⟨buf, cur, inp, lineno, ls, 0, -((j + 1 : Nat) : Int) + 1, dn, enc⟩, DEDENT, cur, cur) := by
        unfold specGetToken
        rw [if_pos hc1]
      have hstep := contStep specGetToken _ _ started err DEDENT cur cur hget (by decide)
      simp only [show ¬ (DEDENT = ENDMARKER ∧ started ≠ 0) from by simp [DEDENT, ENDMARKER],
        if_neg, ite_false, if_false] at hstep
      rw [show j + 1 + 2 = (j + 2) + 1 from rfl]
      rw [parsetokLoop_trace_cont _ _ _ _ _ _ _ (by rw [hstep])]
      rw [hstep]
      have hc2 : -((j + 1 : Nat) : Int) + 1 = -(j : Int) := by push_cast; ring
      simp only [hc2]
      have hrec := ih hjpos 1 { err with error := .E_OK } buf cur inp lineno ls dn enc
      simp [hrec, List.replicate_succ, DEDENT]

/-- C5: when the end-marker arrives with a started statement and no dedent
already pending, the driver substitutes exactly one statement terminator
for it (the engine does not see the end-marker in that step), resets the
started flag, sets the pending-indent adjustment to minus the indent depth
and zeroes the indent depth (part one); consequently, against the
spec-modelled Token Source with `N` open indentation levels, the engine is
fed the terminator and then exactly `N` dedent tokens before the
end-marker ever reaches it (part two). -/
theorem c5_dedent_synthesis :
    (∀ {π τ : Type} (g : GrammarEngine π τ) (get : GetToken)
      (tok0 tok1 : TokState) (ps : π) (started : Nat) (err : ErrorDetail) (a b : Nat),
      get tok0 = (tok1, ENDMARKER, a, b) → started ≠ 0 → tok1.pendin = 0 →
      ∃ f, (parsetokStep g get tok0 ps started err).fed = some f ∧
        f.type = NEWLINE ∧ f.type ≠ ENDMARKER ∧
        (parsetokStep g get tok0 ps started err).started = 0 ∧
        (parsetokStep g get tok0 ps started err).tok.pendin = -(tok1.indent : Int) ∧
        (parsetokStep g get tok0 ps started err).tok.indent = 0) ∧
    (∀ (N : Nat), 1 ≤ N → ∀ (tok : TokState) (started : Nat) (err : ErrorDetail),
      tok.indent = N → tok.pendin = 0 → started ≠ 0 →
      (parsetokLoop contEngine specGetToken (N + 3) tok () started err).trace.map FedToken.type
        = NEWLINE :: (List.replicate N DEDENT ++ [NEWLINE, ENDMARKER])) := by
  constructor
  · intro π τ g get tok0 tok1 ps started err a b hget hst hpend
    refine ⟨_, parsetokStep_fed g get tok0 tok1 ps started err ENDMARKER a b hget (by decide),
      ?_, ?_, ?_, ?_⟩
    · show (if ENDMARKER = ENDMARKER ∧ started ≠ 0 then NEWLINE else ENDMARKER) = NEWLINE
      rw [if_pos ⟨rfl, hst⟩]
    · show (if ENDMARKER = ENDMARKER ∧ started ≠ 0 then NEWLINE else ENDMARKER) ≠ ENDMARKER
      rw [if_pos ⟨rfl, hst⟩]
      decide
    · exact (parsetokStep_endmarker g get tok0 tok1 ps started err a b hget hst).1
    · constructor
      · rw [(parsetokStep_endmarker g get tok0 tok1 ps started err a b hget hst).2.1]
        by_cases h2 : tok1.indent ≠ 0
        · rw [if_pos h2]
        · rw [if_neg h2, hpend]
          omega
      · exact (parsetokStep_endmarker g get tok0 tok1 ps started err a b hget hst).2.2
  · intro N hN tok started err hind hpend hst
    obtain ⟨buf, cur, inp, lineno, ls, indent, pendin, dn, enc⟩ := tok
    simp only at hind hpend
    subst hind
    subst hpend
    have hget : specGetToken (⟨buf, cur, inp, lineno, ls, indent, 0, dn, enc⟩ : TokState) =
        (⟨buf, cur, inp, lineno, ls, indent, 0, ECode.E_EOF, enc⟩, ENDMARKER, cur, cur) := by
      unfold specGetToken
      rw [if_neg (by omega : ¬ (0 : Int) < 0)]
    have hstep := contStep specGetToken _ _ started err ENDMARKER cur cur hget (by decide)
    have hNne : indent ≠ 0 := by omega
    simp [hst, hNne] at hstep
    rw [show indent + 3 = (indent + 2) + 1 from rfl]
    rw [parsetokLoop_trace_cont _ _ _ _ _ _ _ (by rw [hstep])]
    rw [hstep]
    have hrec := dedentRun indent hN 0 { err with error := .E_OK } buf cur inp lineno ls ECode.E_EOF enc
    simp only at hrec ⊢
    simp [hrec, NEWLINE]

/-- C5 witness: two open indentation levels produce terminator, two
dedents, terminator, end-marker. -/
theorem c5_dedent_synthesis_witness :
    (parsetokLoop contEngine specGetToken 5 { indent := 2 } () 1 {}).trace.map FedToken.type
      = NEWLINE :: (List.replicate 2 DEDENT ++ [NEWLINE, ENDMARKER]) :=
  c5_dedent_synthesis.2 2 (by decide) { indent := 2 } 1 {} rfl rfl (by decide)

/-- The comment-body predicate of the trailing scan: every character other
than a newline is consumed by the comment (source line 357). -/
def notNl (c : Char) : Bool := c ≠ '\n'

/-- Trailing input acceptable after a single statement, following the
spec's wording for the scan: whitespace characters and hash-to-end-of-line
comments only. -/
inductive TrailOk : List Char → Prop where
  | nil : TrailOk []
  | ws (c : Char) (rest : List Char) :
      isTrailWs c = true → TrailOk rest → TrailOk (c :: rest)
  | comment (rest : List Char) :
      TrailOk (rest.dropWhile notNl) → TrailOk ('#' :: rest)

theorem head_dropWhile_false (p : Char → Bool) : ∀ (l : List Char) (a : Char) (r : List Char),
    l.dropWhile p = a :: r → p a = false := by
  intro l
  induction l with
  | nil =>
    intro a r h
    simp [List.dropWhile] at h
  | cons c t ih =>
    intro a r h
    rw [List.dropWhile_cons] at h
    by_cases hc : p c = true
    · rw [if_pos hc] at h
      exact ih a r h
    · rw [if_neg hc] at h
      injection h with h1 h2
      subst h1
      simp at hc
      exact hc

/-- The whitespace skip realises `dropWhile` on the remaining buffer. -/
theorem drop_skipWs (buf : List Char) : ∀ cur,
    buf.drop (skipWs buf cur) = (buf.drop cur).dropWhile isTrailWs := by
  intro cur
  induction cur using skipWs.induct buf with
  | case1 cur h hws ih =>
    rw [skipWs, dif_pos h, if_pos hws, ih, List.drop_eq_getElem_cons h, List.dropWhile_cons]
    simp only [List.get_eq_getElem] at hws
    rw [if_pos hws]
  | case2 cur h hws =>
    rw [skipWs, dif_pos h, if_neg hws]
    simp only [List.get_eq_getElem] at hws
    rw [List.drop_eq_getElem_cons h, List.dropWhile_cons, if_neg hws]
  | case3 cur h =>
    rw [skipWs, dif_neg h]
    rw [List.drop_eq_nil_of_le (by omega)]
    rfl

/-- The comment skip realises `dropWhile` of non-newline characters. -/
theorem drop_skipComment (buf : List Char) : ∀ cur,
    buf.drop (skipComment buf cur) = (buf.drop cur).dropWhile notNl := by
  intro cur
  induction cur using skipComment.induct buf with
  | case1 cur h hnl ih =>
    rw [skipComment, dif_pos h, if_pos hnl, ih, List.drop_eq_getElem_cons h, List.dropWhile_cons]
    simp only [List.get_eq_getElem] at hnl
    rw [if_pos (by simp [notNl, hnl])]
  | case2 cur h hnl =>
    rw [skipComment, dif_pos h, if_neg hnl]
    simp only [List.get_eq_getElem, not_not] at hnl
    rw [List.drop_eq_getElem_cons h, List.dropWhile_cons, if_neg (by simp [notNl, hnl])]
  | case3 cur h =>
    rw [skipComment, dif_neg h]
    rw [List.drop_eq_nil_of_le (by omega)]
    rfl

/-- Leading acceptable whitespace does not affect acceptability. -/
theorem trailOk_dropWhile (l : List Char) :
    TrailOk l ↔ TrailOk (l.dropWhile isTrailWs) := by
  induction l with
  | nil => rfl
  | cons c r ih =>
    rw [List.dropWhile_cons]
    by_cases hc : isTrailWs c = true
    · rw [if_pos hc]
      constructor
      · intro h
        cases h with
        | ws _ _ _ hr => exact ih.1 hr
        | comment rest hrest => exact absurd hc (by decide)
      · intro h
        exact TrailOk.ws c r hc (ih.2 h)
    · rw [if_neg hc]

/-- The trailing scan accepts exactly the `TrailOk` remainders. -/
theorem singleScan_iff (buf : List Char) : ∀ cur,
    ((singleScan buf cur).2 = true ↔ TrailOk (buf.drop cur)) := by
  intro cur
  induction cur using singleScan.induct buf with
  | case1 cur h hc ih =>
    rw [singleScan, dif_pos h, if_pos hc, ih, drop_skipComment]
    rw [trailOk_dropWhile (buf.drop cur), ← drop_skipWs]
    simp only [List.get_eq_getElem] at hc
    rw [List.drop_eq_getElem_cons h, hc]
    constructor
    · intro ht
      exact TrailOk.comment _ ht
    · intro ht
      cases ht with
      | ws _ _ hws _ => exact absurd hws (by decide)
      | comment _ hr => exact hr
  | case2 cur h hc =>
    rw [singleScan, dif_pos h, if_neg hc]
    simp only [List.get_eq_getElem] at hc
    constructor
    · intro hfalse
      simp at hfalse
    · intro ht
      exfalso
      have hT := (trailOk_dropWhile (buf.drop cur)).1 ht
      have hhead : (buf.drop cur).dropWhile isTrailWs =
          buf[skipWs buf cur] :: buf.drop (skipWs buf cur + 1) := by
        rw [← drop_skipWs, List.drop_eq_getElem_cons h]
      have hnws : isTrailWs buf[skipWs buf cur] = false :=
        head_dropWhile_false isTrailWs (buf.drop cur) _ _ hhead
      rw [hhead] at hT
      generalize hc0 : buf[skipWs buf cur] = c0 at hT hc hnws
      cases hT with
      | ws _ _ hws _ => rw [hws] at hnws; exact Bool.noConfusion hnws
      | comment _ _ => exact hc rfl
  | case3 cur h =>
    rw [singleScan, dif_neg h]
    constructor
    · intro _
      have h0 : (buf.drop cur).dropWhile isTrailWs = [] := by
        rw [← drop_skipWs]
        exact List.drop_eq_nil_of_le (by omega)
      exact (trailOk_dropWhile _).2 (h0 ▸ TrailOk.nil)
    · intro _
      rfl

/-- A Grammar Engine that reports Done on any token and exposes a tree. -/
def doneEngine : GrammarEngine Unit Unit :=
  { initState := ()
    add_token := fun _ _ _ _ _ _ => ((), ECode.E_DONE)
    p_tree := fun _ => some () }

/-- C6: in single-statement mode, after the Grammar Engine reports Done
with a completed tree, the driver's trailing scan of the remaining
buffered input decides the outcome: an acceptable remainder (whitespace
and hash comments only) leaves the tree in place with the error record
untouched, while any other remainder discards the tree and sets the error
kind to the multiple-statements code. -/
theorem c6_single_mode_trailing {π τ : Type} (g : GrammarEngine π τ)
    (tok : TokState) (ps : π) (err : ErrorDetail) (t : τ)
    (herr : err.error = ECode.E_DONE) (htree : g.p_tree ps = some t)
    (hdone : tok.done ≠ ECode.E_EOF) :
    (TrailOk (tok.buf.drop tok.cur) →
      (parsetokFinish g Py_single_input tok ps err).tree = some t ∧
      (parsetokFinish g Py_single_input tok ps err).err.error = ECode.E_DONE) ∧
    (¬ TrailOk (tok.buf.drop tok.cur) →
      (parsetokFinish g Py_single_input tok ps err).tree = none ∧
      (parsetokFinish g Py_single_input tok ps err).err.error = ECode.E_BADSINGLE) := by
  constructor
  · intro ht
    have hsc : (singleScan tok.buf tok.cur).2 = true := (singleScan_iff tok.buf tok.cur).2 ht
    rcases henc : tok.encoding with _ | enc <;>
      simp [parsetokFinish, herr, hsc, htree, henc]
  · intro ht
    have hsc : (singleScan tok.buf tok.cur).2 = false := by
      rcases Bool.eq_false_or_eq_true (singleScan tok.buf tok.cur).2 with h | h
      · exact absurd ((singleScan_iff tok.buf tok.cur).1 h) ht
      · exact h
    simp [parsetokFinish, herr, hsc, htree, hdone]

/-- C6 witness: a remainder of whitespace plus a comment keeps the tree;
a stray character discards it with the multiple-statements error. -/
theorem c6_single_mode_trailing_witness :
    (parsetokFinish doneEngine Py_single_input { buf := " #".toList } ()
      { error := ECode.E_DONE }).tree = some () ∧
    (parsetokFinish doneEngine Py_single_input { buf := "x".toList } ()
      { error := ECode.E_DONE }).err.error = ECode.E_BADSINGLE := by
  constructor
  · exact ((c6_single_mode_trailing doneEngine { buf := " #".toList } ()
      { error := ECode.E_DONE } () rfl rfl (by decide)).1
      (TrailOk.ws ' ' ['#'] (by decide) (TrailOk.comment [] TrailOk.nil))).1
  · refine ((c6_single_mode_trailing doneEngine { buf := "x".toList } ()
      { error := ECode.E_DONE } () rfl rfl (by decide)).2 ?_).2
    intro h
    cases h with
    | ws c rest hws _ => exact absurd hws (by decide)

/-- A Grammar Engine that rejects every token with a syntax error. -/
def errEngine : GrammarEngine Unit Unit :=
  { initState := ()
    add_token := fun _ _ _ _ _ _ => ((), ECode.E_SYNTAX)
    p_tree := fun _ => none }

/-- A Token Source that immediately reports its end-marker, recording
end-of-input in its done flag. -/
def eofGet : GetToken := fun tok =>
  ({ tok with done := ECode.E_EOF }, ENDMARKER, tok.cur, tok.cur)

/-- C7 (amended): the error record starts at `E_OK`; a loop iteration that
does not stop leaves the error at `E_OK`; and the final stage preserves an
explicitly-set error kind only when the Token Source's done flag is not
`E_EOF` — when the done flag is `E_EOF`, the final stage overwrites any
non-Done error kind with `E_EOF`, whether or not an explicit error was
already set. -/
theorem c7_error_lifecycle :
    (∀ fn, (mkErrorDetail fn).error = ECode.E_OK) ∧
    (∀ {π τ : Type} (g : GrammarEngine π τ) (get : GetToken) (tok0 : TokState)
      (ps : π) (started : Nat) (err : ErrorDetail),
      (parsetokStep g get tok0 ps started err).stop = false →
      (parsetokStep g get tok0 ps started err).err.error = ECode.E_OK) ∧
    (∀ {π τ : Type} (g : GrammarEngine π τ) (start : Nat) (tok : TokState) (ps : π)
      (err : ErrorDetail), err.error ≠ ECode.E_DONE → tok.done ≠ ECode.E_EOF →
      (parsetokFinish g start tok ps err).err.error = err.error) ∧
    (∀ {π τ : Type} (g : GrammarEngine π τ) (start : Nat) (tok : TokState) (ps : π)
      (err : ErrorDetail), err.error ≠ ECode.E_DONE → tok.done = ECode.E_EOF →
      (parsetokFinish g start tok ps err).err.error = ECode.E_EOF) := by
  refine ⟨?_, ?_, ?_, ?_⟩
  · intro fn
    rcases fn with _ | f
    · rfl
    · by_cases hf : f = "" <;> simp [mkErrorDetail, hf]
  · intro π τ g get tok0 ps started err h
    simp only [parsetokStep] at h ⊢
    split_ifs at h ⊢ <;> simp_all
  · intro π τ g start tok ps err herr hdone
    simp [parsetokFinish, herr, hdone]
  · intro π τ g start tok ps err herr hdone
    simp [parsetokFinish, herr, hdone]

/-- C7 witness: the constructor starts at `E_OK`; an accepted token leaves
the error at `E_OK`; a syntax error survives the final stage when the done
flag is clear and is replaced by `E_EOF` when the done flag says
end-of-input. -/
theorem c7_error_lifecycle_witness :
    (mkErrorDetail none).error = ECode.E_OK ∧
    (parsetokStep contEngine eofGet {} () 0 {}).err.error = ECode.E_OK ∧
    (parsetokFinish contEngine 0 ({} : TokState) ()
      { error := ECode.E_SYNTAX }).err.error = ECode.E_SYNTAX ∧
    (parsetokFinish contEngine 0 ({ done := ECode.E_EOF } : TokState) ()
      { error := ECode.E_SYNTAX }).err.error = ECode.E_EOF :=
  ⟨c7_error_lifecycle.1 none,
   c7_error_lifecycle.2.1 contEngine eofGet {} () 0 {} (by decide),
   c7_error_lifecycle.2.2.1 contEngine 0 {} () { error := ECode.E_SYNTAX }
     (by decide) (by decide),
   c7_error_lifecycle.2.2.2 contEngine 0 { done := ECode.E_EOF } ()
     { error := ECode.E_SYNTAX } (by decide) rfl⟩

/-- C7 counterexample: against a rejecting engine and a Token Source whose
done flag records end-of-input, the loop sets the error kind to the
engine's explicit syntax error, yet the final stage of `parsetok`
overwrites it with `E_EOF` — a non-OK error kind set by the driver is
overwritten downstream. -/
theorem c7_error_lifecycle_counterexample :
    (parsetokLoop errEngine eofGet 1 {} () 0 {}).err.error = ECode.E_SYNTAX ∧
    ((parsetok errEngine eofGet 1 {} Py_file_input {}).1.err.error = ECode.E_EOF) := by
  constructor
  · rfl
  · rfl
